import Mathlib

/-!
# Dom1SpeedTest_N64: calibration engine, presence detector and session state machine

Shallow embedding of `src/dom1speedtest.c`.  Machine integers are natural numbers
with explicit reductions (`u8`, `u32`), the global array `MinPWDForLAT` is a list of
256 bytes, and the hardware (timing registers, bus transfers) is explicit state.
Console and display calls and the busy-wait delays carry no state of interest and
are left out.
-/

namespace Dom1SpeedTest

/-! ## Machine integers and arrays -/

/-- Conversion to `uint8_t`. -/
def u8 (x : Nat) : Nat := x % 256

/-- Conversion to `uint32_t`. -/
def u32 (x : Nat) : Nat := x % 4294967296

/-- Array load `A[i]`. -/
def getEntry (A : List Nat) (i : Nat) : Nat := A.getD i 0

/-- Array store `A[i] = v`. -/
def setEntry (A : List Nat) (i v : Nat) : List Nat := A.set i v

/-! ## Speed levels -/

def SPEED_LEVEL_TOTAL_POS : Nat := 0

def NUM_SPEED_LEVELS : Nat := 9

def SpeedLevelLAT : List Nat := [0xFF, 0xE0, 0xC0, 0xA0, 0x80, 0x60, 0x40, 0x20, 0x00]

def SpeedLevelPWD : List Nat := [0xFF, 0xD4, 0xA9, 0x7E, 0x53, 0x28, 0x12, 0x09, 0x00]

/-- One iteration of the loop of `MapSpeedToLevel`; `acc` is `(BestLevel, BestDistance)`. -/
def MapSpeedToLevelStep (LAT PWD : Nat) (acc : Nat × Nat) (Level : Nat) : Nat × Nat :=
  let LatDiff := if LAT > SpeedLevelLAT.getD Level 0 then LAT - SpeedLevelLAT.getD Level 0
    else SpeedLevelLAT.getD Level 0 - LAT
  let PwdDiff := if PWD > SpeedLevelPWD.getD Level 0 then PWD - SpeedLevelPWD.getD Level 0
    else SpeedLevelPWD.getD Level 0 - PWD
  let Distance := LatDiff + PwdDiff
  if Distance < acc.2 then (Level, Distance) else acc

/-- The speed level whose table entry is closest to `(LAT, PWD)`. -/
def MapSpeedToLevel (LAT PWD : Nat) : Nat :=
  ((List.range NUM_SPEED_LEVELS).foldl (MapSpeedToLevelStep LAT PWD)
    (SPEED_LEVEL_TOTAL_POS, 0xFFFF)).1

/-- Cost of a timing pair, `(uint32_t)LAT + (uint32_t)PWD * 2`. -/
def CalculateSpeedMetric (LAT PWD : Nat) : Nat := u32 (u32 LAT + u32 (u32 PWD * 2))

/-! ## RunSpeedTest -/

/-- The two hardware operations `RunSpeedTest` calls, over a hardware state `σ`. -/
structure SpeedOps (σ : Type) where
  ReadReferenceData : σ → σ
  TestSpeed : Nat → Nat → σ → Bool × σ

/-- Variables of `RunSpeedTest` during the sweep, together with the hardware state. -/
structure Cal (σ : Type) where
  MinPWDForLAT : List Nat
  BestLAT : Nat
  BestPWD : Nat
  BestMetric : Nat
  hw : σ

/-- What `RunSpeedTest` leaves behind: the returned level, the two output parameters,
the global matrix and the hardware state. -/
structure SpeedResult (σ : Type) where
  level : Nat
  OutLAT : Nat
  OutPWD : Nat
  MinPWDForLAT : List Nat
  hw : σ

/-- Body of the inner loop: one trial of `(LAT, PWD)`. -/
def pwdBody {σ : Type} (ops : SpeedOps σ) (LAT : Nat) (c : Cal σ) (PWD : Nat) : Cal σ :=
  let r := ops.TestSpeed (u8 LAT) (u8 PWD) c.hw
  if r.1 then
    let M := if getEntry c.MinPWDForLAT LAT = 0xFF ∨ PWD < getEntry c.MinPWDForLAT LAT
      then setEntry c.MinPWDForLAT LAT (u8 PWD) else c.MinPWDForLAT
    let Metric := CalculateSpeedMetric (u8 LAT) (u8 PWD)
    if Metric < c.BestMetric then Cal.mk M (u8 LAT) (u8 PWD) Metric r.2
    else Cal.mk M c.BestLAT c.BestPWD c.BestMetric r.2
  else Cal.mk c.MinPWDForLAT c.BestLAT c.BestPWD c.BestMetric r.2

/-- The inner loop `for (PWD = 0; PWD < 256; PWD++)` for one latency. -/
def pwdLoop {σ : Type} (ops : SpeedOps σ) (LAT : Nat) (c : Cal σ) : Cal σ :=
  (List.range 256).foldl (pwdBody ops LAT) c

/-- The row check: the first entry of the row is not the sentinel and the fifteen
entries after it equal it. -/
def rowAllSame (M : List Nat) (RowStart : Nat) : Bool :=
  let FirstPWD := getEntry M RowStart
  decide (FirstPWD ≠ 0xFF) &&
    (List.range 15).all (fun i => decide (getEntry M (RowStart + (i + 1)) = FirstPWD))

/-- The fill loop `for (RemainingLAT = LAT + 1; RemainingLAT < 256; RemainingLAT++)`. -/
def fillRemaining (M : List Nat) (LAT FirstPWD : Nat) : List Nat :=
  (List.range (255 - LAT)).foldl (fun A i => setEntry A (LAT + 1 + i) FirstPWD) M

/-- Body of the outer loop for one latency; the flag tells whether the loop is left
through `break`. -/
def latBody {σ : Type} (ops : SpeedOps σ) (LAT : Nat) (c : Cal σ) : Cal σ × Bool :=
  let c1 := pwdLoop ops LAT c
  if LAT % 16 = 15 then
    let RowStart := LAT - 15
    let FirstPWD := getEntry c1.MinPWDForLAT RowStart
    if rowAllSame c1.MinPWDForLAT RowStart = true ∧ LAT < 255 then
      (Cal.mk (fillRemaining c1.MinPWDForLAT LAT FirstPWD) c1.BestLAT c1.BestPWD c1.BestMetric
        c1.hw, true)
    else (c1, false)
  else (c1, false)

/-- The outer loop `for (LAT = ...; LAT < 256; LAT++)` with `n` iterations left. -/
def latLoop {σ : Type} (ops : SpeedOps σ) : Nat → Nat → Cal σ → Cal σ
  | 0, _, c => c
  | n + 1, LAT, c =>
    let r := latBody ops LAT c
    if r.2 then r.1 else latLoop ops n (LAT + 1) r.1

/-- The initialisation loop of the matrix. -/
def initMatrix (M : List Nat) : List Nat :=
  (List.range 256).foldl (fun A LAT => setEntry A LAT 0xFF) M

/-- Variables at the head of the outer loop. -/
def calInit {σ : Type} (ops : SpeedOps σ) (M : List Nat) (hw : σ) : Cal σ :=
  Cal.mk (initMatrix M) 0xFF 0xFF 0xFFFFFFFF (ops.ReadReferenceData hw)

/-- The end of `RunSpeedTest`: choose the outputs from the best pair. -/
def selectResult {σ : Type} (c : Cal σ) : SpeedResult σ :=
  if c.BestLAT ≠ 0xFF ∧ c.BestPWD ≠ 0xFF then
    SpeedResult.mk (MapSpeedToLevel c.BestLAT c.BestPWD) c.BestLAT c.BestPWD c.MinPWDForLAT c.hw
  else
    SpeedResult.mk SPEED_LEVEL_TOTAL_POS 0xFF 0xFF c.MinPWDForLAT c.hw

/-- The function `RunSpeedTest`; `M` is the global matrix on entry. -/
def RunSpeedTest {σ : Type} (ops : SpeedOps σ) (M : List Nat) (hw : σ) : SpeedResult σ :=
  selectResult (latLoop ops 256 0 (calInit ops M hw))

/-- State at the head of outer iteration `LAT`, when the loop gets there. -/
def headState {σ : Type} (ops : SpeedOps σ) (M : List Nat) (hw : σ) : Nat → Option (Cal σ)
  | 0 => some (calInit ops M hw)
  | LAT + 1 =>
    match headState ops M hw LAT with
    | none => none
    | some c => if (latBody ops LAT c).2 then none else some (latBody ops LAT c).1

/-! ## The bus access primitive -/

def CART_DOM1_START : Nat := 0x10000000

def CART_DOM1_SIZE : Nat := 0x00800000

def NUM_TEST_LOCATIONS : Nat := 4

def BYTES_PER_LOCATION : Nat := 128

def ADDRESS_SPACING : Nat := 128

def DEFAULT_DOM1_LAT : Nat := 0xFF

def DEFAULT_DOM1_PWD : Nat := 0xFF

/-- The four timing registers of domain 1. -/
structure Timing where
  LAT : Nat
  PWD : Nat
  PGS : Nat
  RLS : Nat
  deriving DecidableEq

/-- What the program does on the bus: a call of `SetDom1Speed` or a transfer started by
`CartDom1Read`. -/
inductive BusEvent where
  | speed (LAT PWD PGS RLS : Nat)
  | read (Offset Len : Nat)
  deriving DecidableEq

/-- The attached device, or the open bus: `dev n t Offset Len i` is byte `i` of transfer
number `n`, made under timing `t` from `Offset` with length `Len`. -/
def Device : Type := Nat → Timing → Nat → Nat → Nat → Nat

/-- The bus as the program sees it: the timing registers, the number of transfers made,
the events so far (newest first) and whether an assertion of `CartDom1Read` has
failed. -/
structure Bus where
  regs : Timing
  transfers : Nat
  log : List BusEvent
  assertFailed : Bool

/-- The four assertions at the top of `CartDom1Read`. -/
def CartDom1ReadAsserts (DestIsNull : Bool) (Offset Len : Nat) : Bool :=
  !DestIsNull && decide (Offset < CART_DOM1_SIZE) && decide (Len > 0) &&
    decide (u32 (Offset + Len) ≤ CART_DOM1_SIZE)

/-- The function `CartDom1Read`: the bytes that arrive in `Dest` and the bus afterwards.
When an assertion fails no transfer is started and the failure is recorded. -/
def CartDom1Read (dev : Device) (b : Bus) (DestIsNull : Bool) (Offset Len : Nat) :
    List Nat × Bus :=
  if CartDom1ReadAsserts DestIsNull Offset Len = true then
    ((List.range Len).map (fun i => u8 (dev b.transfers b.regs Offset Len i)),
      Bus.mk b.regs (b.transfers + 1) (BusEvent.read Offset Len :: b.log) b.assertFailed)
  else ([], Bus.mk b.regs b.transfers b.log true)

/-- The function `SetDom1Speed`: the four register writes. -/
def SetDom1Speed (b : Bus) (LAT PWD PGS RLS : Nat) : Bus :=
  Bus.mk (Timing.mk LAT PWD PGS RLS) b.transfers (BusEvent.speed LAT PWD PGS RLS :: b.log)
    b.assertFailed

/-! ## The media presence detector -/

def TestAddresses : List Nat := [0x10000000, 0x10000004, 0x10000008, 0x1000000C]

def CheckIndices : List Nat := [0, 2]

/-- Conversion to `uint16_t`. -/
def u16 (x : Nat) : Nat := x % 65536

/-- The 32-bit word the big-endian processor loads from four bytes. -/
def wordOfBytes (bs : List Nat) : Nat :=
  ((bs.getD 0 0 * 256 + bs.getD 1 0) * 256 + bs.getD 2 0) * 256 + bs.getD 3 0

/-- The check loop of `CartDetectPresence` over the indices still to check. -/
def presenceLoop (ReadValues : List Nat) : List Nat → Bool
  | [] => false
  | i :: rest =>
    let Address := TestAddresses.getD i 0
    let Lower16Bits := Address &&& 0xFFFF
    let ReadValue := ReadValues.getD i 0
    let ReadLower16 := u16 (ReadValue &&& 0xFFFF)
    let ReadUpper16 := u16 ((ReadValue >>> 16) &&& 0xFFFF)
    if ReadLower16 = u16 Lower16Bits ∨ ReadUpper16 = u16 Lower16Bits then
      presenceLoop ReadValues rest
    else true

/-- The result of `CartDetectPresence` for the four words read. -/
def presenceOfWords (ReadValues : List Nat) : Bool := presenceLoop ReadValues CheckIndices

/-- The read loop of `CartDetectPresence`: one 4-byte transfer per test address. -/
def presenceReads (dev : Device) (b : Bus) : List Nat × Bus :=
  (List.range 4).foldl (fun (acc : List Nat × Bus) i =>
    let r := CartDom1Read dev acc.2 false (u32 (TestAddresses.getD i 0 + 4294967296 -
      CART_DOM1_START)) 4
    (acc.1.set i (wordOfBytes r.1), r.2)) ([0, 0, 0, 0], b)

/-- The function `CartDetectPresence`. -/
def CartDetectPresence (dev : Device) (b : Bus) : Bool × Bus :=
  let r := presenceReads dev b
  (presenceOfWords r.1, r.2)

/-! ## The media identity -/

/-- The function `CartReadName`: the result, the name buffer and the bus afterwards. -/
def CartReadName (dev : Device) (b : Bus) (NameBufferIsNull : Bool) (NameBuffer : List Nat)
    (BufferSize : Nat) : Bool × List Nat × Bus :=
  if NameBufferIsNull = true ∨ BufferSize < 21 then (false, NameBuffer, b)
  else
    let r := CartDom1Read dev b false 0x20 32
    let HasValidChars := (List.range 20).any
      (fun i => decide (r.1.getD i 0 ≥ 0x20 ∧ r.1.getD i 0 ≤ 0x7E))
    (HasValidChars, (List.range 20).map (fun i => r.1.getD i 0) ++ [0], r.2)

/-! ## Reference data and trials on the bus -/

/-- The bus together with the global buffer `ReferenceData`. -/
structure Hw where
  bus : Bus
  ReferenceData : List (List Nat)

/-- The function `ReadReferenceData`. -/
def ReadReferenceData (dev : Device) (hw : Hw) : Hw :=
  (List.range NUM_TEST_LOCATIONS).foldl (fun (h : Hw) i =>
    let Address := u32 (CART_DOM1_START + i * ADDRESS_SPACING)
    let Offset := u32 (Address + 4294967296 - CART_DOM1_START)
    let r := CartDom1Read dev h.bus false Offset BYTES_PER_LOCATION
    Hw.mk r.2 (h.ReferenceData.set i r.1))
    (Hw.mk (SetDom1Speed hw.bus 0xFF 0xFF 0x07 0x03) hw.ReferenceData)

/-- The read-and-compare loop of `TestSpeed` over the locations still to read. -/
def TestSpeedLoop (dev : Device) (ReferenceData : List (List Nat)) : List Nat → Bus → Bool × Bus
  | [], b => (true, b)
  | i :: rest, b =>
    let Address := u32 (CART_DOM1_START + i * ADDRESS_SPACING)
    let Offset := u32 (Address + 4294967296 - CART_DOM1_START)
    let r := CartDom1Read dev b false Offset BYTES_PER_LOCATION
    if r.1.take BYTES_PER_LOCATION ≠ (ReferenceData.getD i []).take BYTES_PER_LOCATION then
      (false, r.2)
    else TestSpeedLoop dev ReferenceData rest r.2

/-- The function `TestSpeed`. -/
def TestSpeed (dev : Device) (hw : Hw) (LAT PWD : Nat) : Bool × Hw :=
  let r := TestSpeedLoop dev hw.ReferenceData (List.range NUM_TEST_LOCATIONS)
    (SetDom1Speed hw.bus LAT PWD 0x07 0x03)
  (r.1, Hw.mk r.2 hw.ReferenceData)

/-- The operations `RunSpeedTest` uses, on the bus with device `dev`. -/
def busOps (dev : Device) : SpeedOps Hw where
  ReadReferenceData := ReadReferenceData dev
  TestSpeed := fun LAT PWD hw => TestSpeed dev hw LAT PWD

/-! ## The session state machine -/

inductive test_state_t where
  | STATE_INIT
  | STATE_SAFE_REMOVE
  | STATE_DETECT
  | STATE_TEST
  deriving DecidableEq

/-- The globals of the program together with the hardware. -/
structure Machine where
  CurrentState : test_state_t
  FirstInit : Bool
  CartridgeName : List Nat
  MinPWDForLAT : List Nat
  hw : Hw

/-- The polling loop of the state SafeToRemove, with a bound on the number of polls;
`none` when the media is still present after that many. -/
def waitRemoved (dev : Device) : Nat → Bus → Option Bus
  | 0, _ => none
  | fuel + 1, b =>
    if (CartDetectPresence dev b).1 = true then waitRemoved dev fuel (CartDetectPresence dev b).2
    else some (CartDetectPresence dev b).2

/-- One call of `HandleStateMachine`.  `RUN_ON_EMULATOR` is the build flag, `fuel` bounds
the polls of the state SafeToRemove; the result is `none` when the call does not return.
The call of `hang_pif` in the state Init returns once reset is pressed and leaves the
globals and the bus as they are. -/
def HandleStateMachine (RUN_ON_EMULATOR : Bool) (fuel : Nat) (dev : Device) (m : Machine) :
    Option Machine :=
  match m.CurrentState with
  | test_state_t.STATE_INIT =>
    some (Machine.mk test_state_t.STATE_SAFE_REMOVE (if m.FirstInit then false else m.FirstInit)
      m.CartridgeName m.MinPWDForLAT
      (Hw.mk (SetDom1Speed m.hw.bus DEFAULT_DOM1_LAT DEFAULT_DOM1_PWD 0x07 0x03)
        m.hw.ReferenceData))
  | test_state_t.STATE_SAFE_REMOVE =>
    if RUN_ON_EMULATOR then
      some (Machine.mk test_state_t.STATE_DETECT m.FirstInit m.CartridgeName m.MinPWDForLAT m.hw)
    else
      match waitRemoved dev fuel m.hw.bus with
      | none => none
      | some b =>
        some (Machine.mk test_state_t.STATE_DETECT m.FirstInit m.CartridgeName m.MinPWDForLAT
          (Hw.mk b m.hw.ReferenceData))
  | test_state_t.STATE_DETECT =>
    let p := CartDetectPresence dev m.hw.bus
    if p.1 = false then
      some (Machine.mk test_state_t.STATE_DETECT m.FirstInit m.CartridgeName m.MinPWDForLAT
        (Hw.mk p.2 m.hw.ReferenceData))
    else
      let n := CartReadName dev p.2 false m.CartridgeName 21
      some (Machine.mk (if n.1 then test_state_t.STATE_TEST else test_state_t.STATE_DETECT)
        m.FirstInit n.2.1 m.MinPWDForLAT (Hw.mk n.2.2 m.hw.ReferenceData))
  | test_state_t.STATE_TEST =>
    let p := CartDetectPresence dev m.hw.bus
    if p.1 = false then
      some (Machine.mk test_state_t.STATE_DETECT m.FirstInit m.CartridgeName m.MinPWDForLAT
        (Hw.mk p.2 m.hw.ReferenceData))
    else
      let r := RunSpeedTest (busOps dev) m.MinPWDForLAT (Hw.mk p.2 m.hw.ReferenceData)
      let b1 := SetDom1Speed r.hw.bus r.OutLAT r.OutPWD 0x07 0x03
      let d := CartDom1Read dev b1 false 0 128
      let b2 := SetDom1Speed d.2 0xFF 0xFF 0x07 0x03
      if RUN_ON_EMULATOR then none
      else
        some (Machine.mk test_state_t.STATE_SAFE_REMOVE m.FirstInit m.CartridgeName
          r.MinPWDForLAT (Hw.mk b2 r.hw.ReferenceData))

/-- The open bus: every 16-bit half of a word read echoes the low 16 bits of the
address the transfer starts at. -/
def openBusDevice : Device := fun _ _ Offset _ i => if i % 2 = 1 then u8 Offset else u8 (Offset / 256)

/-- A device all of whose bytes read as zero at every timing. -/
def zeroDevice : Device := fun _ _ _ _ _ => 0

/-- The bus after reset, before any event. -/
def busInit : Bus := Bus.mk (Timing.mk 0 0 0 0) 0 [] false

/-- The hardware after reset: the bus and the zero-initialised `ReferenceData`. -/
def hwInit : Hw := Hw.mk busInit (List.replicate 4 (List.replicate 128 0))

/-- A device whose reads are a function of the timing, the offset and the length
alone. -/
def Deterministic (dev : Device) : Prop :=
  ∀ n n' t Offset Len i, dev n t Offset Len i = dev n' t Offset Len i

/-- The transfer precondition on the range: a positive length that stays inside the
device address space. -/
def inBounds (Offset Len : Nat) : Prop :=
  Offset < CART_DOM1_SIZE ∧ 0 < Len ∧ Offset + Len ≤ CART_DOM1_SIZE

/-- An event that is a register write or an in-bounds transfer of a multiple of 16
bytes. -/
def okBlock : BusEvent → Prop
  | BusEvent.speed _ _ _ _ => True
  | BusEvent.read Offset Len => inBounds Offset Len ∧ Len % 16 = 0

/-- An event that is an in-bounds transfer of one 4-byte word. -/
def okWord : BusEvent → Prop
  | BusEvent.speed _ _ _ _ => False
  | BusEvent.read Offset Len => inBounds Offset Len ∧ Len = 4

/-- The bus `b1` comes from `b0` by events that all satisfy `P`, newest first, and no
assertion has failed on the way. -/
def BusExt (P : BusEvent → Prop) (b0 b1 : Bus) : Prop :=
  ∃ es, b1.log = es ++ b0.log ∧ (∀ e, e ∈ es → P e) ∧ b1.assertFailed = b0.assertFailed

/-- An event the program may put on the bus: a register write, an in-bounds transfer
of a multiple of 16 bytes, or an in-bounds transfer of one 4-byte word. -/
def okEvent (e : BusEvent) : Prop := okBlock e ∨ okWord e

/-- The machine after reset, put in session state `s`. -/
def machineAt (s : test_state_t) : Machine :=
  Machine.mk s true [] (List.replicate 256 0) hwInit

/-! ## Trial outcomes as a fixed function -/

/-- Hardware whose trial outcome is the fixed function `works`; the state is the list
of trials made so far, newest first. -/
def oracle (works : Nat → Nat → Bool) : SpeedOps (List (Nat × Nat)) where
  ReadReferenceData := fun log => log
  TestSpeed := fun LAT PWD log => (works LAT PWD, (LAT, PWD) :: log)

/-- One run of `RunSpeedTest` against the outcome function `works`. -/
def runWith (works : Nat → Nat → Bool) : SpeedResult (List (Nat × Nat)) :=
  RunSpeedTest (oracle works) (List.replicate 256 0) []

/-- The trials of a run in the order they were made. -/
def trials (r : SpeedResult (List (Nat × Nat))) : List (Nat × Nat) := r.hw.reverse

/-- State at the head of outer iteration `LAT` of `runWith works`. -/
def headOf (works : Nat → Nat → Bool) (LAT : Nat) : Option (Cal (List (Nat × Nat))) :=
  headState (oracle works) (List.replicate 256 0) [] LAT

/-! ## Reference functions for the sweep -/

/-- The trials of one latency, in the order the inner loop makes them. -/
def rowTrials (LAT : Nat) : List (Nat × Nat) := (List.range 256).map (fun PWD => (LAT, PWD))

/-- The trials of the latencies below `n`, in the order the sweep makes them. -/
def sweepTrials (n : Nat) : List (Nat × Nat) := (List.range n).flatMap rowTrials

/-- The least pulse width below `k` that works for `LAT`, or `0xFF` when there is none. -/
def firstWorking (works : Nat → Nat → Bool) (LAT k : Nat) : Nat :=
  ((List.range k).find? (fun PWD => works LAT PWD)).getD 0xFF

/-- The least pulse width in `0..255` that works for `LAT`, or `0xFF` when there is none. -/
def rowMin (works : Nat → Nat → Bool) (LAT : Nat) : Nat := firstWorking works LAT 256

/-- The best pair is either still the initial one, no trial having succeeded, or a
pair that was tried, succeeded, and costs no more than any trial that succeeded. -/
def BestInv (works : Nat → Nat → Bool) (c : Cal (List (Nat × Nat))) : Prop :=
  (c.BestLAT = 0xFF ∧ c.BestPWD = 0xFF ∧ c.BestMetric = 0xFFFFFFFF ∧
      ∀ t ∈ c.hw, works t.1 t.2 = false) ∨
    (works c.BestLAT c.BestPWD = true ∧ (c.BestLAT, c.BestPWD) ∈ c.hw ∧
      c.BestLAT < 256 ∧ c.BestPWD < 256 ∧ c.BestMetric = c.BestLAT + 2 * c.BestPWD ∧
      ∀ t ∈ c.hw, works t.1 t.2 = true → c.BestMetric ≤ t.1 + 2 * t.2)

/-- What holds at the head of outer iteration `L`: the rows below `L` hold their least
working pulse width, the rows from `L` on still hold the sentinel, and the trials made
are those of the rows below `L`. -/
def HeadSpec (works : Nat → Nat → Bool) (L : Nat) (c : Cal (List (Nat × Nat))) : Prop :=
  c.MinPWDForLAT.length = 256 ∧
    (∀ j, j < L → getEntry c.MinPWDForLAT j = rowMin works j) ∧
    (∀ j, L ≤ j → j < 256 → getEntry c.MinPWDForLAT j = 0xFF) ∧
    c.hw = (sweepTrials L).reverse ∧ BestInv works c

/-- The sixteen rows starting at `s` all have the same least working pulse width, and
it is not the sentinel. -/
def blockSame (works : Nat → Nat → Bool) (s : Nat) : Prop :=
  rowMin works s ≠ 0xFF ∧ ∀ i, i < 16 → rowMin works (s + i) = rowMin works s

/-- The variables of `runWith works` when the outer loop is left. -/
def finalCal (works : Nat → Nat → Bool) : Cal (List (Nat × Nat)) :=
  latLoop (oracle works) 256 0 (calInit (oracle works) (List.replicate 256 0) [])

/-- The sweep variables of a run on hardware `σ` agree with those of a run against an
outcome function, and the hardware state satisfies `I`. -/
def SimCal {σ : Type} (I : σ → Prop) (c : Cal σ) (d : Cal (List (Nat × Nat))) : Prop :=
  c.MinPWDForLAT = d.MinPWDForLAT ∧ c.BestLAT = d.BestLAT ∧ c.BestPWD = d.BestPWD ∧
    c.BestMetric = d.BestMetric ∧ I c.hw

/-- The outcome function of the device `dev` against the reference data `ref`: the
result of `TestSpeed` started from the bus after reset. -/
def worksOn (dev : Device) (ref : List (List Nat)) : Nat → Nat → Bool :=
  fun LAT PWD => (TestSpeed dev (Hw.mk (Bus.mk (Timing.mk 0 0 0 0) 0 [] false) ref) LAT PWD).1

/-- The outer loop of `runWith works` reaches latency `L`: no earlier row check has left
the loop. -/
def swept (works : Nat → Nat → Bool) (L : Nat) : Prop := ∃ c, headOf works L = some c

/-- The variables after the rows below `L` have been swept one after the other. -/
def sweepRows (works : Nat → Nat → Bool) : Nat → Cal (List (Nat × Nat))
  | 0 => calInit (oracle works) (List.replicate 256 0) []
  | L + 1 => pwdLoop (oracle works) L (sweepRows works L)

/-! ## Outcome functions used as concrete inputs -/

/-- A device that reads correctly at latency `0xFF` only, whatever the pulse width. -/
def onlyMaxLatency : Nat → Nat → Bool := fun LAT _ => decide (LAT = 255)

/-- A device that reads correctly at the latencies `0..15` only, whatever the pulse
width. -/
def firstBlockOnly : Nat → Nat → Bool := fun LAT _ => decide (LAT < 16)

/-- A device that reads correctly at pulse width `0xFF` only, whatever the latency. -/
def onlyMaxPulse : Nat → Nat → Bool := fun _ PWD => decide (PWD = 255)

/-- A device that reads correctly at every timing. -/
def alwaysWorks : Nat → Nat → Bool := fun _ _ => true

/-- A device no trial of which succeeds. -/
def neverWorks : Nat → Nat → Bool := fun _ _ => false

/-- A device that reads correctly at the reference timing `(0xFF, 0xFF)` only. -/
def onlyReference : Nat → Nat → Bool := fun LAT PWD => decide (LAT = 255 ∧ PWD = 255)

/-! ## Notions used for the session state machine -/

/-- A byte that is a printable character. -/
def printable (x : Nat) : Prop := 0x20 ≤ x ∧ x ≤ 0x7E

/-- Byte `i` of the identity read made on bus `b`: the byte at device offset `0x20 + i`. -/
def nameByte (dev : Device) (b : Bus) (i : Nat) : Nat := u8 (dev b.transfers b.regs 0x20 32 i)

/-- The calibration run of the state Test: `RunSpeedTest` on the bus the presence check
leaves. -/
def testRun (dev : Device) (m : Machine) : SpeedResult Hw :=
  RunSpeedTest (busOps dev) m.MinPWDForLAT
    (Hw.mk (CartDetectPresence dev m.hw.bus).2 m.hw.ReferenceData)

/-- During a run of `RunSpeedTest` started on `hw0`, the trials on device `dev` have the
fixed outcome `works`; `I` holds of the hardware throughout the sweep. -/
def FixedOutcome (dev : Device) (works : Nat → Nat → Bool) (I : Hw → Prop) (hw0 : Hw) : Prop :=
  I (ReadReferenceData dev hw0) ∧
    ∀ LAT PWD s, I s → I (TestSpeed dev s LAT PWD).2 ∧ (TestSpeed dev s LAT PWD).1 = works LAT PWD

/-- A device all of whose bytes read as the letter `A` at every timing. -/
def letterDevice : Device := fun _ _ _ _ _ => 0x41

/-- A device that reads zeros in its first eight transfers and ones afterwards. -/
def fadingDevice : Device := fun n _ _ _ _ => if n < 8 then 0 else 1

/-- The hardware on which the state Test starts its calibration run after reset, on
device `dev`. -/
def testStart (dev : Device) : Hw :=
  Hw.mk (CartDetectPresence dev (machineAt test_state_t.STATE_TEST).hw.bus).2
    (machineAt test_state_t.STATE_TEST).hw.ReferenceData

/-! ## The trap handler of `pif.c` -/

/-- The saved registers of an exception record.  The type is declared by the platform
library: the three fields `pif.c` writes are kept apart, all other fields are one
component of an arbitrary type. -/
structure reg_block_t (ρ : Type) where
  sr : Nat
  epc : Nat
  t1 : Nat
  others : ρ

/-- An exception record: its type, its code, the pointer to the saved registers, and
the fields `pif.c` does not name. -/
structure exception_t (ρ ι : Type) where
  type : Nat
  code : Nat
  info : ι
  regs : reg_block_t ρ

/-- An exception handler: what a call does to the record it is given and to the rest
of the system, of type `ω`. -/
def exception_handler_t (ρ ι ω : Type) : Type :=
  exception_t ρ ι → ω → exception_t ρ ι × ω

/-- Values `pif.c` uses that are declared outside the repository: two enumeration
constants of the platform library and the address of the label `__nasty_label_hack`. -/
structure TrapEnv where
  EXCEPTION_TYPE_CRITICAL : Nat
  EXCEPTION_CODE_WATCH : Nat
  nasty_label_hack : Nat

/-- The static variables of `pif.c`. -/
structure PifStatics (ρ ι ω : Type) where
  old_exception_handler : exception_handler_t ρ ι ω
  sr : Nat

/-- The function `exception_handler` of `pif.c`. -/
def exception_handler {ρ ι ω : Type} (env : TrapEnv) (g : PifStatics ρ ι ω) :
    exception_handler_t ρ ι ω :=
  fun ex w =>
    if ex.type ≠ env.EXCEPTION_TYPE_CRITICAL then g.old_exception_handler ex w
    else if ex.code ≠ env.EXCEPTION_CODE_WATCH then g.old_exception_handler ex w
    else
      (exception_t.mk ex.type ex.code ex.info
        (reg_block_t.mk g.sr (u32 env.nasty_label_hack) 0xA5A5A5A55A5A5A5A ex.regs.others), w)

/-- What the first statements of `hang_pif` read and write in the processor: the status
register and the registered exception handler. -/
structure TrapCpu (ρ ι ω : Type) where
  C0_STATUS : Nat
  handler : exception_handler_t ρ ι ω

/-- The first statements of `hang_pif`: save the status register in `sr`, register
`exception_handler` and keep the handler registered before in `old_exception_handler`. -/
def hang_pif_install {ρ ι ω : Type} (env : TrapEnv) (cpu : TrapCpu ρ ι ω) :
    PifStatics ρ ι ω × TrapCpu ρ ι ω :=
  (PifStatics.mk cpu.handler (u32 cpu.C0_STATUS),
    TrapCpu.mk cpu.C0_STATUS
      (exception_handler env (PifStatics.mk cpu.handler (u32 cpu.C0_STATUS))))

/-- Concrete values for the constants declared outside the repository. -/
def sampleEnv : TrapEnv := TrapEnv.mk 2 23 0x80010000

/-- A previous handler that leaves the record as it is and counts its calls. -/
def countingHandler : exception_handler_t Unit Unit Nat := fun ex n => (ex, n + 1)

/-- A processor with status `0x34000001` and the counting handler registered. -/
def sampleCpu : TrapCpu Unit Unit Nat := TrapCpu.mk 0x34000001 countingHandler

/-- A critical Watch exception record. -/
def watchRecord : exception_t Unit Unit :=
  exception_t.mk 2 23 () (reg_block_t.mk 0 0x80000180 7 ())

/-- A critical exception record whose code is not Watch. -/
def otherRecord : exception_t Unit Unit :=
  exception_t.mk 2 4 () (reg_block_t.mk 0 0x80000180 7 ())

/-! ## Basic facts -/

theorem u8_of_lt {x : Nat} (h : x < 256) : u8 x = x := Nat.mod_eq_of_lt h

theorem metric_of_lt {L P : Nat} (hL : L < 256) (hP : P < 256) :
    CalculateSpeedMetric L P = L + 2 * P := by
  unfold CalculateSpeedMetric u32
  omega

theorem length_setEntry (A : List Nat) (i v : Nat) : (setEntry A i v).length = A.length := by
  simp [setEntry]

theorem getEntry_setEntry (A : List Nat) (i v j : Nat) (hi : i < A.length) :
    getEntry (setEntry A i v) j = if j = i then v else getEntry A j := by
  unfold getEntry setEntry
  simp only [List.getD_eq_getElem?_getD, List.getElem?_set]
  by_cases h : i = j
  · subst h
    simp [hi]
  · have h2 : ¬ j = i := fun e => h e.symm
    simp [h, h2]

theorem getEntry_replicate (n v j : Nat) (hj : j < n) :
    getEntry (List.replicate n v) j = v := by
  unfold getEntry
  simp [List.getElem?_replicate, hj]

/-! ## One trial -/

theorem pwdBody_hw (works : Nat → Nat → Bool) (L P : Nat) (c : Cal (List (Nat × Nat))) :
    (pwdBody (oracle works) L c P).hw = (u8 L, u8 P) :: c.hw := by
  unfold pwdBody oracle
  simp only
  split
  · split <;> rfl
  · rfl

theorem pwdBody_length (works : Nat → Nat → Bool) (L P : Nat) (c : Cal (List (Nat × Nat))) :
    (pwdBody (oracle works) L c P).MinPWDForLAT.length = c.MinPWDForLAT.length := by
  unfold pwdBody oracle
  simp only
  split
  · split <;> (simp only []; split <;> simp [length_setEntry])
  · rfl

theorem pwdBody_entry (works : Nat → Nat → Bool) (L P : Nat) (c : Cal (List (Nat × Nat)))
    (hL : L < c.MinPWDForLAT.length) (j : Nat) :
    getEntry (pwdBody (oracle works) L c P).MinPWDForLAT j =
      if j = L ∧ works (u8 L) (u8 P) = true ∧
          (getEntry c.MinPWDForLAT L = 0xFF ∨ P < getEntry c.MinPWDForLAT L)
      then u8 P else getEntry c.MinPWDForLAT j := by
  unfold pwdBody oracle
  simp only
  by_cases hw : works (u8 L) (u8 P) = true
  · by_cases hc : getEntry c.MinPWDForLAT L = 0xFF ∨ P < getEntry c.MinPWDForLAT L
    · simp only [hw, hc, if_true, and_true]
      split <;> simp [getEntry_setEntry _ _ _ _ hL]
    · simp only [hw, hc, if_true, if_false, and_false]
      split <;> simp
  · simp [hw]

theorem pwdBody_best (works : Nat → Nat → Bool) (L P : Nat) (c : Cal (List (Nat × Nat)))
    (hL : L < 256) (hP : P < 256) (h : BestInv works c) :
    BestInv works (pwdBody (oracle works) L c P) := by
  have hhw := pwdBody_hw works L P c
  rw [u8_of_lt hL, u8_of_lt hP] at hhw
  unfold BestInv
  rw [hhw]
  unfold pwdBody oracle
  simp only [u8_of_lt hL, u8_of_lt hP, metric_of_lt hL hP]
  by_cases hw : works L P = true
  · simp only [hw, if_true]
    by_cases hm : L + 2 * P < c.BestMetric
    · simp only [hm, if_true]
      right
      refine ⟨hw, List.mem_cons_self _ _, hL, hP, trivial, ?_⟩
      intro t ht hwt
      rcases List.mem_cons.1 ht with e | ht
      · subst e
        exact Nat.le_refl _
      · rcases h with ⟨_, _, hb, hnone⟩ | ⟨_, _, _, _, _, hmin⟩
        · rw [hnone t ht] at hwt
          exact absurd hwt (by decide)
        · exact Nat.le_trans (Nat.le_of_lt hm) (hmin t ht hwt)
    · simp only [hm, if_false]
      rcases h with ⟨_, _, hb, _⟩ | ⟨h1, h2, h3, h4, h5, hmin⟩
      · exfalso
        rw [hb] at hm
        omega
      · right
        refine ⟨h1, List.mem_cons_of_mem _ h2, h3, h4, h5, ?_⟩
        intro t ht hwt
        rcases List.mem_cons.1 ht with e | ht
        · subst e
          omega
        · exact hmin t ht hwt
  · simp only [hw]
    rcases h with ⟨h1, h2, h3, hnone⟩ | ⟨h1, h2, h3, h4, h5, hmin⟩
    · left
      refine ⟨h1, h2, h3, ?_⟩
      intro t ht
      rcases List.mem_cons.1 ht with e | ht
      · subst e
        simpa using hw
      · exact hnone t ht
    · right
      refine ⟨h1, List.mem_cons_of_mem _ h2, h3, h4, h5, ?_⟩
      intro t ht hwt
      rcases List.mem_cons.1 ht with e | ht
      · subst e
        exact absurd hwt hw
      · exact hmin t ht hwt

/-! ## One row of the sweep -/

theorem firstWorking_succ (works : Nat → Nat → Bool) (L k : Nat) (hk : k < 256) :
    firstWorking works L (k + 1) =
      if works L k = true ∧ (firstWorking works L k = 0xFF ∨ k < firstWorking works L k)
      then k else firstWorking works L k := by
  unfold firstWorking
  rw [List.range_succ, List.find?_append]
  cases hf : (List.range k).find? (fun PWD => works L PWD) with
  | none =>
    by_cases hw : works L k = true
    · simp [List.find?_cons, hw]
    · simp [List.find?_cons, hw]
  | some p =>
    have hp : p < k := by
      have := (List.find?_range_eq_some.1 hf).2.1
      exact List.mem_range.1 this
    have h1 : ¬ (p = 255) := by omega
    have h2 : ¬ (k < p) := by omega
    simp [h1, h2]

theorem firstWorking_le (works : Nat → Nat → Bool) (L k : Nat) (hk : k ≤ 256) :
    firstWorking works L k ≤ 255 := by
  unfold firstWorking
  cases hf : (List.range k).find? (fun PWD => works L PWD) with
  | none => simp
  | some p =>
    have := List.mem_range.1 (List.find?_range_eq_some.1 hf).2.1
    simp only [Option.getD_some]
    omega

theorem firstWorking_of_least (works : Nat → Nat → Bool) (L k P0 : Nat) (hP : P0 < k)
    (hw : works L P0 = true) (hmin : ∀ P, P < P0 → works L P = false) :
    firstWorking works L k = P0 := by
  unfold firstWorking
  have : (List.range k).find? (fun PWD => works L PWD) = some P0 := by
    rw [List.find?_range_eq_some]
    refine ⟨hw, List.mem_range.2 hP, ?_⟩
    intro j hj
    simp [hmin j hj]
  simp [this]

theorem firstWorking_of_none (works : Nat → Nat → Bool) (L k : Nat)
    (h : ∀ P, P < k → works L P = false) : firstWorking works L k = 0xFF := by
  unfold firstWorking
  have : (List.range k).find? (fun PWD => works L PWD) = none := by
    rw [List.find?_range_eq_none]
    intro i hi
    simp [h i hi]
  simp [this]

theorem firstWorking_spec (works : Nat → Nat → Bool) (L k : Nat)
    (h : firstWorking works L k ≠ 0xFF) :
    firstWorking works L k < k ∧ works L (firstWorking works L k) = true ∧
      ∀ P, P < firstWorking works L k → works L P = false := by
  unfold firstWorking at h ⊢
  cases hf : (List.range k).find? (fun PWD => works L PWD) with
  | none => simp [hf] at h
  | some p =>
    have hs := List.find?_range_eq_some.1 hf
    simp only [Option.getD_some]
    refine ⟨List.mem_range.1 hs.2.1, hs.1, ?_⟩
    intro P hP
    simpa using hs.2.2 P hP

/-- The state after the first `k` trials of row `L`. -/
theorem rowPrefix (works : Nat → Nat → Bool) (L : Nat) (c : Cal (List (Nat × Nat)))
    (hL : L < 256) (hlen : c.MinPWDForLAT.length = 256) (k : Nat) (hk : k ≤ 256) :
    ((List.range k).foldl (pwdBody (oracle works) L) c).hw =
        ((List.range k).map (fun PWD => (L, PWD))).reverse ++ c.hw ∧
      ((List.range k).foldl (pwdBody (oracle works) L) c).MinPWDForLAT.length = 256 ∧
      (∀ j, j ≠ L → getEntry ((List.range k).foldl (pwdBody (oracle works) L) c).MinPWDForLAT j
        = getEntry c.MinPWDForLAT j) ∧
      (getEntry c.MinPWDForLAT L = 0xFF →
        getEntry ((List.range k).foldl (pwdBody (oracle works) L) c).MinPWDForLAT L
          = firstWorking works L k) ∧
      (BestInv works c → BestInv works ((List.range k).foldl (pwdBody (oracle works) L) c)) := by
  induction k with
  | zero =>
    refine ⟨by simp, by simpa using hlen, by simp, ?_, by simp⟩
    intro h
    simpa [firstWorking] using h
  | succ k ih =>
    have hk1 : k < 256 := by omega
    obtain ⟨ih1, ih2, ih3, ih4, ih5⟩ := ih (by omega)
    rw [List.range_succ, List.foldl_append]
    simp only [List.foldl_cons, List.foldl_nil]
    have hL2 : L < ((List.range k).foldl (pwdBody (oracle works) L) c).MinPWDForLAT.length := by
      rw [ih2]
      exact hL
    refine ⟨?_, ?_, ?_, ?_, ?_⟩
    · rw [pwdBody_hw, ih1, u8_of_lt hL, u8_of_lt hk1]
      simp
    · rw [pwdBody_length, ih2]
    · intro j hj
      rw [pwdBody_entry works L k _ hL2 j, ← ih3 j hj]
      simp [hj]
    · intro h0
      rw [pwdBody_entry works L k _ hL2 L, ih4 h0, firstWorking_succ works L k hk1,
        u8_of_lt hL, u8_of_lt hk1]
      simp
    · intro hb
      exact pwdBody_best works L k _ hL hk1 (ih5 hb)

/-! ## The row check, the fill and the initialisation -/

theorem rowAllSame_iff (M : List Nat) (s : Nat) :
    rowAllSame M s = true ↔
      getEntry M s ≠ 0xFF ∧ ∀ i, i < 16 → getEntry M (s + i) = getEntry M s := by
  unfold rowAllSame
  simp only [Bool.and_eq_true, decide_eq_true_eq, List.all_eq_true, List.mem_range]
  constructor
  · rintro ⟨h1, h2⟩
    refine ⟨h1, ?_⟩
    intro i hi
    cases i with
    | zero => rfl
    | succ i => exact h2 i (by omega)
  · rintro ⟨h1, h2⟩
    exact ⟨h1, fun i hi => h2 (i + 1) (by omega)⟩

theorem fillPrefix (M : List Nat) (a v n : Nat) (hn : a + n ≤ M.length) :
    ((List.range n).foldl (fun A i => setEntry A (a + i) v) M).length = M.length ∧
      ∀ j, getEntry ((List.range n).foldl (fun A i => setEntry A (a + i) v) M) j =
        if a ≤ j ∧ j < a + n then v else getEntry M j := by
  induction n with
  | zero =>
    refine ⟨by simp, ?_⟩
    intro j
    have : ¬ (a ≤ j ∧ j < a + 0) := by omega
    simp only [List.range_zero, List.foldl_nil]
    rw [if_neg this]
  | succ n ih =>
    obtain ⟨ih1, ih2⟩ := ih (by omega)
    rw [List.range_succ, List.foldl_append]
    simp only [List.foldl_cons, List.foldl_nil]
    refine ⟨by rw [length_setEntry, ih1], ?_⟩
    intro j
    rw [getEntry_setEntry _ _ _ _ (by rw [ih1]; omega), ih2 j]
    by_cases h1 : j = a + n
    · have : a ≤ j ∧ j < a + (n + 1) := by omega
      simp [h1]
    · by_cases h2 : a ≤ j ∧ j < a + n
      · have : a ≤ j ∧ j < a + (n + 1) := by omega
        simp [h1, h2, this]
      · have : ¬ (a ≤ j ∧ j < a + (n + 1)) := by omega
        simp [h1, h2, this]

theorem fillRemaining_length (M : List Nat) (L v : Nat) (hlen : M.length = 256)
    (hL : L < 256) : (fillRemaining M L v).length = 256 := by
  unfold fillRemaining
  rw [(fillPrefix M (L + 1) v (255 - L) (by omega)).1, hlen]

theorem fillRemaining_entry (M : List Nat) (L v j : Nat) (hlen : M.length = 256)
    (hL : L < 256) :
    getEntry (fillRemaining M L v) j = if L < j ∧ j < 256 then v else getEntry M j := by
  unfold fillRemaining
  rw [(fillPrefix M (L + 1) v (255 - L) (by omega)).2 j]
  by_cases h : L < j ∧ j < 256
  · have : L + 1 ≤ j ∧ j < L + 1 + (255 - L) := by omega
    simp [h, this]
  · have : ¬ (L + 1 ≤ j ∧ j < L + 1 + (255 - L)) := by omega
    simp [h, this]

theorem initMatrix_length (M : List Nat) (hlen : M.length = 256) :
    (initMatrix M).length = 256 := by
  unfold initMatrix
  have := (fillPrefix M 0 0xFF 256 (by omega)).1
  simp only [Nat.zero_add] at this
  rw [this, hlen]

theorem initMatrix_entry (M : List Nat) (hlen : M.length = 256) (j : Nat) (hj : j < 256) :
    getEntry (initMatrix M) j = 0xFF := by
  unfold initMatrix
  have := (fillPrefix M 0 0xFF 256 (by omega)).2 j
  simp only [Nat.zero_add] at this
  rw [this]
  simp [hj]

/-! ## The body of the outer loop -/

theorem latBody_snd {σ : Type} (ops : SpeedOps σ) (L : Nat) (c : Cal σ) :
    (latBody ops L c).2 = true ↔
      L % 16 = 15 ∧ rowAllSame (pwdLoop ops L c).MinPWDForLAT (L - 15) = true ∧ L < 255 := by
  unfold latBody
  simp only
  by_cases h1 : L % 16 = 15
  · by_cases h2 : rowAllSame (pwdLoop ops L c).MinPWDForLAT (L - 15) = true ∧ L < 255
    · simp [h1, h2]
    · simp only [h1, h2, if_true, if_false, true_and]
      simp
  · simp [h1]

theorem latBody_fst_of_false {σ : Type} (ops : SpeedOps σ) (L : Nat) (c : Cal σ)
    (h : (latBody ops L c).2 = false) : (latBody ops L c).1 = pwdLoop ops L c := by
  by_cases h1 : L % 16 = 15
  · by_cases h2 : rowAllSame (pwdLoop ops L c).MinPWDForLAT (L - 15) = true ∧ L < 255
    · rw [(latBody_snd ops L c).2 ⟨h1, h2.1, h2.2⟩] at h
      exact absurd h (by decide)
    · unfold latBody
      simp only [h1, h2, if_true, if_false]
  · unfold latBody
    simp only [h1, if_false]

theorem latBody_fst_of_true {σ : Type} (ops : SpeedOps σ) (L : Nat) (c : Cal σ)
    (h : (latBody ops L c).2 = true) :
    (latBody ops L c).1 =
      Cal.mk (fillRemaining (pwdLoop ops L c).MinPWDForLAT L
          (getEntry (pwdLoop ops L c).MinPWDForLAT (L - 15)))
        (pwdLoop ops L c).BestLAT (pwdLoop ops L c).BestPWD (pwdLoop ops L c).BestMetric
        (pwdLoop ops L c).hw := by
  have h3 := (latBody_snd ops L c).1 h
  unfold latBody
  simp [h3.1, h3.2.1, h3.2.2]

/-! ## The state at the head of each outer iteration -/

theorem sweepTrials_succ (L : Nat) : sweepTrials (L + 1) = sweepTrials L ++ rowTrials L := by
  unfold sweepTrials
  rw [List.range_succ, List.flatMap_append, List.flatMap_singleton]

theorem pwdLoop_spec (works : Nat → Nat → Bool) (L : Nat) (c : Cal (List (Nat × Nat)))
    (hL : L < 256) (h : HeadSpec works L c) :
    HeadSpec works (L + 1) (pwdLoop (oracle works) L c) := by
  obtain ⟨h1, h2, h3, h4, h5⟩ := h
  obtain ⟨r1, r2, r3, r4, r5⟩ := rowPrefix works L c hL h1 256 (Nat.le_refl _)
  unfold pwdLoop
  refine ⟨r2, ?_, ?_, ?_, r5 h5⟩
  · intro j hj
    by_cases e : j = L
    · subst e
      rw [r4 (h3 j (Nat.le_refl _) hL)]
      rfl
    · rw [r3 j e]
      exact h2 j (by omega)
  · intro j hj1 hj2
    rw [r3 j (by omega)]
    exact h3 j (by omega) hj2
  · rw [r1, h4, sweepTrials_succ, List.reverse_append]
    rfl

theorem headOf_zero (works : Nat → Nat → Bool) :
    headOf works 0 = some (calInit (oracle works) (List.replicate 256 0) []) := rfl

theorem headOf_succ_of_some (works : Nat → Nat → Bool) (L : Nat) (c : Cal (List (Nat × Nat)))
    (h : headOf works L = some c) :
    headOf works (L + 1) =
      if (latBody (oracle works) L c).2 then none else some (latBody (oracle works) L c).1 := by
  unfold headOf at h ⊢
  rw [headState, h]

theorem headOf_succ_of_none (works : Nat → Nat → Bool) (L : Nat)
    (h : headOf works L = none) : headOf works (L + 1) = none := by
  unfold headOf at h ⊢
  rw [headState, h]

theorem headOf_succ_some (works : Nat → Nat → Bool) (L : Nat) (c1 : Cal (List (Nat × Nat)))
    (h : headOf works (L + 1) = some c1) :
    ∃ c, headOf works L = some c ∧ (latBody (oracle works) L c).2 = false ∧
      c1 = pwdLoop (oracle works) L c := by
  cases hc : headOf works L with
  | none =>
    rw [headOf_succ_of_none works L hc] at h
    exact absurd h (by simp)
  | some c =>
    rw [headOf_succ_of_some works L c hc] at h
    by_cases hf : (latBody (oracle works) L c).2 = true
    · simp [hf] at h
    · have hf2 : (latBody (oracle works) L c).2 = false := by simpa using hf
      simp only [hf2] at h
      refine ⟨c, rfl, hf2, ?_⟩
      rw [← latBody_fst_of_false _ _ _ hf2]
      exact (Option.some.inj h).symm

theorem calInit_matrix {σ : Type} (ops : SpeedOps σ) (M : List Nat) (hw : σ) :
    (calInit ops M hw).MinPWDForLAT = initMatrix M := by
  unfold calInit
  simp only

theorem calInit_spec (works : Nat → Nat → Bool) :
    HeadSpec works 0 (calInit (oracle works) (List.replicate 256 0) []) := by
  have hlen : (List.replicate 256 0).length = 256 := List.length_replicate _ _
  unfold HeadSpec
  refine ⟨?_, ?_, ?_, ?_, ?_⟩
  · rw [calInit_matrix]
    exact initMatrix_length _ hlen
  · intro j hj
    omega
  · intro j _ hj
    rw [calInit_matrix]
    exact initMatrix_entry _ hlen j hj
  · rfl
  · left
    refine ⟨rfl, rfl, rfl, ?_⟩
    intro t ht
    have : t ∈ ([] : List (Nat × Nat)) := ht
    exact absurd this (List.not_mem_nil t)

theorem head_spec (works : Nat → Nat → Bool) (L : Nat) :
    ∀ c, L ≤ 256 → headOf works L = some c → HeadSpec works L c := by
  induction L with
  | zero =>
    intro c _ h
    rw [headOf_zero] at h
    rw [← Option.some.inj h]
    exact calInit_spec works
  | succ L ih =>
    intro c1 hL h
    obtain ⟨c, hc, _, e⟩ := headOf_succ_some works L c1 h
    rw [e]
    exact pwdLoop_spec works L c (by omega) (ih c (by omega) hc)

theorem head_some_of_le (works : Nat → Nat → Bool) (L : Nat) (c : Cal (List (Nat × Nat)))
    (h : headOf works L = some c) : ∀ K, K ≤ L → ∃ d, headOf works K = some d := by
  induction L generalizing c with
  | zero =>
    intro K hK
    have : K = 0 := by omega
    subst this
    exact ⟨c, h⟩
  | succ L ih =>
    intro K hK
    by_cases e : K = L + 1
    · subst e
      exact ⟨c, h⟩
    · obtain ⟨c0, hc0, _, _⟩ := headOf_succ_some works L c h
      exact ih c0 hc0 K (by omega)

/-! ## The state when the outer loop is left -/

theorem latLoop_of_head (works : Nat → Nat → Bool) (L : Nat) :
    ∀ c, L ≤ 256 → headOf works L = some c →
      finalCal works = latLoop (oracle works) (256 - L) L c := by
  induction L with
  | zero =>
    intro c _ h
    rw [headOf_zero] at h
    rw [← Option.some.inj h]
    rfl
  | succ L ih =>
    intro c1 hL h
    obtain ⟨c, hc, hf, e⟩ := headOf_succ_some works L c1 h
    rw [ih c (by omega) hc]
    have : 256 - L = (256 - (L + 1)) + 1 := by omega
    rw [this, latLoop]
    simp only [hf]
    rw [latBody_fst_of_false _ _ _ hf, e]
    rfl

theorem final_of_full (works : Nat → Nat → Bool) (c : Cal (List (Nat × Nat)))
    (h : headOf works 256 = some c) : finalCal works = c := by
  rw [latLoop_of_head works 256 c (Nat.le_refl _) h]
  rfl

theorem final_of_break (works : Nat → Nat → Bool) (L : Nat) (c : Cal (List (Nat × Nat)))
    (hL : L < 256) (h : headOf works L = some c)
    (hf : (latBody (oracle works) L c).2 = true) :
    finalCal works = (latBody (oracle works) L c).1 := by
  rw [latLoop_of_head works L c (by omega) h]
  have : 256 - L = (256 - (L + 1)) + 1 := by omega
  rw [this, latLoop]
  simp only [hf]
  rfl

theorem run_cases_upto (works : Nat → Nat → Bool) (n : Nat) :
    (∃ c, headOf works n = some c) ∨
      ∃ L c, L < n ∧ headOf works L = some c ∧ (latBody (oracle works) L c).2 = true := by
  induction n with
  | zero => exact Or.inl ⟨_, headOf_zero works⟩
  | succ n ih =>
    rcases ih with ⟨c, hc⟩ | ⟨L, c, hL, hc, hf⟩
    · by_cases hf : (latBody (oracle works) n c).2 = true
      · exact Or.inr ⟨n, c, by omega, hc, hf⟩
      · left
        refine ⟨(latBody (oracle works) n c).1, ?_⟩
        rw [headOf_succ_of_some works n c hc]
        simp [hf]
    · exact Or.inr ⟨L, c, by omega, hc, hf⟩

theorem mem_sweepTrials (n : Nat) (t : Nat × Nat) :
    t ∈ sweepTrials n ↔ t.1 < n ∧ t.2 < 256 := by
  unfold sweepTrials rowTrials
  simp only [List.mem_flatMap, List.mem_range, List.mem_map]
  constructor
  · rintro ⟨a, ha, b, hb, rfl⟩
    exact ⟨ha, hb⟩
  · rintro ⟨h1, h2⟩
    exact ⟨t.1, h1, t.2, h2, rfl⟩

theorem length_rowTrials (L : Nat) : (rowTrials L).length = 256 := by
  unfold rowTrials
  rw [List.length_map, List.length_range]

theorem length_sweepTrials (n : Nat) : (sweepTrials n).length = 256 * n := by
  induction n with
  | zero => rfl
  | succ n ih =>
    rw [sweepTrials_succ, List.length_append, ih, length_rowTrials]
    omega

theorem latBody_flag_iff (works : Nat → Nat → Bool) (L : Nat) (c : Cal (List (Nat × Nat)))
    (hL : L < 256) (h : headOf works L = some c) :
    (latBody (oracle works) L c).2 = true ↔
      L % 16 = 15 ∧ L < 255 ∧ blockSame works (L - 15) := by
  have hs := pwdLoop_spec works L c hL (head_spec works L c (by omega) h)
  rw [latBody_snd, rowAllSame_iff]
  unfold blockSame
  constructor
  · rintro ⟨h1, ⟨h2, h3⟩, h4⟩
    have e0 := hs.2.1 (L - 15) (by omega)
    refine ⟨h1, h4, by rw [← e0]; exact h2, ?_⟩
    intro i hi
    rw [← e0, ← hs.2.1 (L - 15 + i) (by omega)]
    exact h3 i hi
  · rintro ⟨h1, h4, h2, h3⟩
    have e0 := hs.2.1 (L - 15) (by omega)
    refine ⟨h1, ⟨by rw [e0]; exact h2, ?_⟩, h4⟩
    intro i hi
    rw [e0, hs.2.1 (L - 15 + i) (by omega)]
    exact h3 i hi

theorem head_some_of_no_block (works : Nat → Nat → Bool) (n : Nat) (hn : n ≤ 256)
    (h : ∀ L, L < n → L % 16 = 15 → L < 255 → ¬ blockSame works (L - 15)) :
    ∃ c, headOf works n = some c := by
  rcases run_cases_upto works n with hc | ⟨L, c, hL, hc, hf⟩
  · exact hc
  · have := (latBody_flag_iff works L c (by omega) hc).1 hf
    exact absurd this.2.2 (h L hL this.1 this.2.1)

/-- The state in which a run that sweeps all 256 rows leaves the loop. -/
theorem final_full_spec (works : Nat → Nat → Bool) (c : Cal (List (Nat × Nat)))
    (h : headOf works 256 = some c) : HeadSpec works 256 (finalCal works) := by
  rw [final_of_full works c h]
  exact head_spec works 256 c (Nat.le_refl _) h

/-- The state in which a run that breaks after row `L` leaves the loop. -/
theorem final_break_spec (works : Nat → Nat → Bool) (L : Nat) (c : Cal (List (Nat × Nat)))
    (hL : L < 256) (h : headOf works L = some c)
    (hf : (latBody (oracle works) L c).2 = true) :
    (finalCal works).MinPWDForLAT.length = 256 ∧
      (∀ j, j ≤ L → getEntry (finalCal works).MinPWDForLAT j = rowMin works j) ∧
      (∀ j, L < j → j < 256 →
        getEntry (finalCal works).MinPWDForLAT j = rowMin works (L - 15)) ∧
      (finalCal works).hw = (sweepTrials (L + 1)).reverse ∧ BestInv works (finalCal works) := by
  have hs := pwdLoop_spec works L c hL (head_spec works L c (by omega) h)
  obtain ⟨s1, s2, s3, s4, s5⟩ := hs
  rw [final_of_break works L c hL h hf, latBody_fst_of_true _ _ _ hf]
  simp only
  refine ⟨fillRemaining_length _ _ _ s1 hL, ?_, ?_, s4, ?_⟩
  · intro j hj
    rw [fillRemaining_entry _ _ _ _ s1 hL]
    have : ¬ (L < j ∧ j < 256) := by omega
    rw [if_neg this]
    exact s2 j (by omega)
  · intro j hj1 hj2
    rw [fillRemaining_entry _ _ _ _ s1 hL, if_pos ⟨hj1, hj2⟩]
    exact s2 (L - 15) (by omega)
  · exact s5

theorem final_best (works : Nat → Nat → Bool) : BestInv works (finalCal works) := by
  rcases run_cases_upto works 256 with ⟨c, hc⟩ | ⟨L, c, hL, hc, hf⟩
  · exact (final_full_spec works c hc).2.2.2.2
  · exact (final_break_spec works L c hL hc hf).2.2.2.2

theorem final_length (works : Nat → Nat → Bool) :
    (finalCal works).MinPWDForLAT.length = 256 := by
  rcases run_cases_upto works 256 with ⟨c, hc⟩ | ⟨L, c, hL, hc, hf⟩
  · exact (final_full_spec works c hc).1
  · exact (final_break_spec works L c hL hc hf).1

/-- A row the sweep reached ends with its least working pulse width, or the sentinel. -/
theorem final_entry_swept (works : Nat → Nat → Bool) (L : Nat) (c : Cal (List (Nat × Nat)))
    (hL : L < 256) (h : headOf works L = some c) :
    getEntry (finalCal works).MinPWDForLAT L = rowMin works L := by
  rcases run_cases_upto works 256 with ⟨d, hd⟩ | ⟨K, d, hK, hd, hf⟩
  · exact (final_full_spec works d hd).2.1 L hL
  · have hle : L ≤ K := by
      by_contra hlt
      obtain ⟨e, he⟩ := head_some_of_le works L c h (K + 1) (by omega)
      rw [headOf_succ_of_some works K d hd] at he
      simp [hf] at he
    exact (final_break_spec works K d hK hd hf).2.1 L hle

/-! ## The result of a run -/

theorem runWith_matrix (works : Nat → Nat → Bool) :
    (runWith works).MinPWDForLAT = (finalCal works).MinPWDForLAT := by
  show (selectResult (finalCal works)).MinPWDForLAT = _
  unfold selectResult
  split <;> rfl

theorem runWith_hw (works : Nat → Nat → Bool) : (runWith works).hw = (finalCal works).hw := by
  show (selectResult (finalCal works)).hw = _
  unfold selectResult
  split <;> rfl

theorem runWith_out (works : Nat → Nat → Bool) :
    ((finalCal works).BestLAT ≠ 0xFF ∧ (finalCal works).BestPWD ≠ 0xFF ∧
        (runWith works).OutLAT = (finalCal works).BestLAT ∧
        (runWith works).OutPWD = (finalCal works).BestPWD ∧
        (runWith works).level =
          MapSpeedToLevel (finalCal works).BestLAT (finalCal works).BestPWD) ∨
      (((finalCal works).BestLAT = 0xFF ∨ (finalCal works).BestPWD = 0xFF) ∧
        (runWith works).OutLAT = 0xFF ∧ (runWith works).OutPWD = 0xFF ∧
        (runWith works).level = SPEED_LEVEL_TOTAL_POS) := by
  show (_ ∧ _ ∧ (selectResult (finalCal works)).OutLAT = _ ∧
      (selectResult (finalCal works)).OutPWD = _ ∧ (selectResult (finalCal works)).level = _) ∨
    (_ ∧ (selectResult (finalCal works)).OutLAT = _ ∧
      (selectResult (finalCal works)).OutPWD = _ ∧ (selectResult (finalCal works)).level = _)
  unfold selectResult
  by_cases h : (finalCal works).BestLAT ≠ 0xFF ∧ (finalCal works).BestPWD ≠ 0xFF
  · left
    rw [if_pos h]
    exact ⟨h.1, h.2, by simp only, by simp only, by simp only⟩
  · right
    rw [if_neg h]
    refine ⟨?_, by simp only, by simp only, by simp only⟩
    by_cases h1 : (finalCal works).BestLAT = 0xFF
    · exact Or.inl h1
    · right
      by_contra h2
      exact h ⟨h1, h2⟩

theorem trials_of_full (works : Nat → Nat → Bool) (c : Cal (List (Nat × Nat)))
    (h : headOf works 256 = some c) : trials (runWith works) = sweepTrials 256 := by
  unfold trials
  rw [runWith_hw, (final_full_spec works c h).2.2.2.1, List.reverse_reverse]

theorem trials_of_break (works : Nat → Nat → Bool) (L : Nat) (c : Cal (List (Nat × Nat)))
    (hL : L < 256) (h : headOf works L = some c)
    (hf : (latBody (oracle works) L c).2 = true) :
    trials (runWith works) = sweepTrials (L + 1) := by
  unfold trials
  rw [runWith_hw, (final_break_spec works L c hL h hf).2.2.2.1, List.reverse_reverse]

theorem rowMin_eq_sentinel_iff (works : Nat → Nat → Bool) (L : Nat) :
    rowMin works L = 0xFF ↔ ∀ P, P < 255 → works L P = false := by
  unfold rowMin firstWorking
  cases hf : (List.range 256).find? (fun PWD => works L PWD) with
  | none =>
    have hn := List.find?_range_eq_none.1 hf
    simp only [Option.getD_none, true_iff]
    intro P hP
    simpa using hn P (by omega)
  | some p =>
    have hs := List.find?_range_eq_some.1 hf
    have hp := List.mem_range.1 hs.2.1
    simp only [Option.getD_some]
    constructor
    · intro e P hP
      simpa using hs.2.2 P (by omega)
    · intro h
      by_contra hne
      have := h p (by omega)
      rw [hs.1] at this
      exact absurd this (by decide)

theorem headOf_eq_sweepRows (works : Nat → Nat → Bool) (L : Nat) :
    ∀ c, headOf works L = some c → c = sweepRows works L := by
  induction L with
  | zero =>
    intro c h
    rw [headOf_zero] at h
    exact (Option.some.inj h).symm
  | succ L ih =>
    intro c1 h
    obtain ⟨c, hc, _, e⟩ := headOf_succ_some works L c1 h
    rw [e, ih c hc]
    rfl

theorem headOf_of_swept (works : Nat → Nat → Bool) (L : Nat) (h : swept works L) :
    headOf works L = some (sweepRows works L) := by
  obtain ⟨c, hc⟩ := h
  rw [hc, headOf_eq_sweepRows works L c hc]

theorem swept_of_no_block (works : Nat → Nat → Bool) (n : Nat) (hn : n ≤ 256)
    (h : ∀ L, L < n → L % 16 = 15 → L < 255 → ¬ blockSame works (L - 15)) :
    swept works n := head_some_of_no_block works n hn h

theorem swept_zero (works : Nat → Nat → Bool) : swept works 0 := ⟨_, headOf_zero works⟩

theorem rowMin_of_least (works : Nat → Nat → Bool) (L P0 : Nat) (hP : P0 < 256)
    (hw : works L P0 = true) (hmin : ∀ P, P < P0 → works L P = false) :
    rowMin works L = P0 := firstWorking_of_least works L 256 P0 hP hw hmin

theorem rowMin_of_none (works : Nat → Nat → Bool) (L : Nat)
    (h : ∀ P, P < 256 → works L P = false) : rowMin works L = 0xFF :=
  firstWorking_of_none works L 256 h

theorem run_entry_swept (works : Nat → Nat → Bool) (L : Nat) (hL : L < 256)
    (h : swept works L) : getEntry (runWith works).MinPWDForLAT L = rowMin works L := by
  obtain ⟨c, hc⟩ := h
  rw [runWith_matrix]
  exact final_entry_swept works L c hL hc

/-- A latency below 256 is reached by the outer loop exactly when its first trial is
among the trials of the run. -/
theorem swept_iff_tried (works : Nat → Nat → Bool) (L : Nat) (hL : L < 256) :
    swept works L ↔ (L, 0) ∈ trials (runWith works) := by
  rcases run_cases_upto works 256 with ⟨d, hd⟩ | ⟨K, d, hK, hd, hf⟩
  · rw [trials_of_full works d hd, mem_sweepTrials]
    constructor
    · intro _
      exact ⟨hL, Nat.zero_lt_succ _⟩
    · intro _
      exact head_some_of_le works 256 d hd L (by omega)
  · rw [trials_of_break works K d hK hd hf, mem_sweepTrials]
    constructor
    · rintro ⟨c, hc⟩
      refine ⟨?_, Nat.zero_lt_succ _⟩
      by_contra hlt
      obtain ⟨e, he⟩ := head_some_of_le works L c hc (K + 1) (by omega)
      rw [headOf_succ_of_some works K d hd] at he
      simp [hf] at he
    · rintro ⟨h1, _⟩
      exact head_some_of_le works K d hd L (by omega)

theorem entry_after_row (works : Nat → Nat → Bool) (L : Nat) (c : Cal (List (Nat × Nat)))
    (hL : L < 256) (hc : headOf works L = some c) (j : Nat) (hj : j ≤ L) :
    getEntry (pwdLoop (oracle works) L c).MinPWDForLAT j = rowMin works j :=
  (pwdLoop_spec works L c hL (head_spec works L c (by omega) hc)).2.1 j (by omega)

/-- Every entry of the final matrix that is not the sentinel costs at least as much as
the best pair of the sweep, when some trial succeeded. -/
theorem best_cost_le_entry (works : Nat → Nat → Bool) (L : Nat) (hL : L < 256)
    (hne : getEntry (finalCal works).MinPWDForLAT L ≠ 0xFF)
    (hbest : (finalCal works).BestLAT ≠ 0xFF ∨ (finalCal works).BestPWD ≠ 0xFF) :
    (finalCal works).BestLAT + 2 * (finalCal works).BestPWD ≤
      L + 2 * getEntry (finalCal works).MinPWDForLAT L := by
  have key : ∀ (n K : Nat), (finalCal works).hw = (sweepTrials n).reverse → K < n → K ≤ L →
      getEntry (finalCal works).MinPWDForLAT L = rowMin works K →
      (finalCal works).BestLAT + 2 * (finalCal works).BestPWD ≤
        L + 2 * getEntry (finalCal works).MinPWDForLAT L := by
    intro n K hhw hK hKL hM
    rw [hM] at hne ⊢
    obtain ⟨w1, w2, _⟩ := firstWorking_spec works K 256 hne
    have hmem : (K, rowMin works K) ∈ (finalCal works).hw := by
      rw [hhw, List.mem_reverse, mem_sweepTrials]
      exact ⟨hK, w1⟩
    rcases final_best works with ⟨b1, b2, _, _⟩ | ⟨_, _, _, _, b5, b6⟩
    · rcases hbest with h | h
      · exact absurd b1 h
      · exact absurd b2 h
    · have := b6 (K, rowMin works K) hmem w2
      rw [b5] at this
      simp only at this
      omega
  rcases run_cases_upto works 256 with ⟨d, hd⟩ | ⟨K, d, hK, hd, hf⟩
  · obtain ⟨_, s2, _, s4, _⟩ := final_full_spec works d hd
    exact key 256 L s4 hL (Nat.le_refl _) (s2 L hL)
  · obtain ⟨_, s2, s3, s4, _⟩ := final_break_spec works K d hK hd hf
    have hflag := (latBody_snd _ K d).1 hf
    by_cases hle : L ≤ K
    · exact key (K + 1) L s4 (by omega) (Nat.le_refl _) (s2 L hle)
    · exact key (K + 1) (K - 15) s4 (by omega) (by omega) (s3 L (by omega) hL)

/-! ## The bus: basic facts -/

theorem and_low16 (w : Nat) : w &&& 0xFFFF = w % 65536 := by
  have := Nat.and_pow_two_sub_one_eq_mod w 16
  simpa using this

theorem shiftRight_16 (w : Nat) : w >>> 16 = w / 65536 := by
  rw [Nat.shiftRight_eq_div_pow]

theorem presenceOfWords_eq (w0 w1 w2 w3 : Nat) :
    presenceOfWords [w0, w1, w2, w3] =
      !(decide (w0 % 65536 = 0 ∨ w0 / 65536 % 65536 = 0) &&
        decide (w2 % 65536 = 8 ∨ w2 / 65536 % 65536 = 8)) := by
  have e0 : TestAddresses.getD 0 0 &&& 0xFFFF = 0 := by decide
  have e2 : TestAddresses.getD 2 0 &&& 0xFFFF = 8 := by decide
  unfold presenceOfWords CheckIndices presenceLoop presenceLoop presenceLoop
  simp only [e0, e2, and_low16, shiftRight_16, u16, List.getD_cons_zero, List.getD_cons_succ,
    Nat.mod_mod, Nat.zero_mod]
  by_cases h0 : w0 % 65536 = 0 ∨ w0 / 65536 % 65536 = 0
  · by_cases h2 : w2 % 65536 = 8 ∨ w2 / 65536 % 65536 = 8
    · simp [h0, h2]
    · simp [h0, h2]
  · simp [h0]

theorem presenceReads_bus (dev : Device) (b : Bus) :
    (presenceReads dev b).2 = Bus.mk b.regs (b.transfers + 4)
      (BusEvent.read 12 4 :: BusEvent.read 8 4 :: BusEvent.read 4 4 :: BusEvent.read 0 4 ::
        b.log) b.assertFailed := by
  rfl

theorem ReadReferenceData_bus (dev : Device) (hw : Hw) :
    (ReadReferenceData dev hw).bus =
      Bus.mk (Timing.mk 0xFF 0xFF 0x07 0x03) (hw.bus.transfers + 4)
        (BusEvent.read 384 128 :: BusEvent.read 256 128 :: BusEvent.read 128 128 ::
          BusEvent.read 0 128 :: BusEvent.speed 0xFF 0xFF 0x07 0x03 :: hw.bus.log)
        hw.bus.assertFailed := by
  rfl

theorem CartReadName_bus (dev : Device) (b : Bus) (nb : List Nat) :
    (CartReadName dev b false nb 21).2.2 =
      Bus.mk b.regs (b.transfers + 1) (BusEvent.read 0x20 32 :: b.log) b.assertFailed := by
  rfl

theorem TestSpeed_reference (dev : Device) (hd : Deterministic dev) (hw : Hw)
    (hlen : hw.ReferenceData.length = NUM_TEST_LOCATIONS) :
    (TestSpeed dev (ReadReferenceData dev hw) 0xFF 0xFF).1 = true := by
  have hdev : ∀ n, dev n = dev 0 := by
    intro n
    funext t o l i
    exact hd n 0 t o l i
  obtain ⟨bus, ref⟩ := hw
  match ref, hlen with
  | [a, b, c, d], _ =>
    have e : (ReadReferenceData dev (Hw.mk bus [a, b, c, d])).ReferenceData =
        [(List.range 128).map
            (fun i => u8 (dev bus.transfers (Timing.mk 0xFF 0xFF 0x07 0x03) 0 128 i)),
          (List.range 128).map
            (fun i => u8 (dev (bus.transfers + 1) (Timing.mk 0xFF 0xFF 0x07 0x03) 128 128 i)),
          (List.range 128).map
            (fun i => u8 (dev (bus.transfers + 2) (Timing.mk 0xFF 0xFF 0x07 0x03) 256 128 i)),
          (List.range 128).map
            (fun i => u8 (dev (bus.transfers + 3) (Timing.mk 0xFF 0xFF 0x07 0x03) 384 128 i))] :=
      rfl
    have eb := ReadReferenceData_bus dev (Hw.mk bus [a, b, c, d])
    unfold TestSpeed
    rw [e, eb]
    simp only [SetDom1Speed, NUM_TEST_LOCATIONS]
    have r4 : List.range 4 = [0, 1, 2, 3] := rfl
    rw [r4]
    simp only [TestSpeedLoop, CartDom1Read]
    simp [hdev (bus.transfers + 1), hdev (bus.transfers + 2), hdev (bus.transfers + 3),
      hdev (bus.transfers + 4), hdev (bus.transfers + 4 + 1), hdev (bus.transfers + 4 + 1 + 1),
      hdev (bus.transfers + 4 + 1 + 1 + 1), hdev bus.transfers, CartDom1ReadAsserts, u32,
      CART_DOM1_START, CART_DOM1_SIZE, ADDRESS_SPACING, BYTES_PER_LOCATION]

/-- When every row ends with the sentinel the run makes all trials and reports the
pair `(0xFF, 0xFF)` with the lowest level. -/
theorem run_all_sentinel (works : Nat → Nat → Bool)
    (hrow : ∀ L, L < 256 → rowMin works L = 0xFF) :
    (runWith works).OutLAT = 0xFF ∧ (runWith works).OutPWD = 0xFF ∧
      (runWith works).level = SPEED_LEVEL_TOTAL_POS ∧
      trials (runWith works) = sweepTrials 256 ∧
      (runWith works).MinPWDForLAT.length = 256 ∧
      ∀ L, L < 256 → getEntry (runWith works).MinPWDForLAT L = 0xFF := by
  have hsw : swept works 256 := by
    apply swept_of_no_block works 256 (Nat.le_refl _)
    intro L hL _ _ hb
    exact hb.1 (hrow _ (by omega))
  obtain ⟨c, hc⟩ := hsw
  obtain ⟨s1, s2, _, s4, s5⟩ := final_full_spec works c hc
  have ht := trials_of_full works c hc
  have hinit : (finalCal works).BestLAT = 0xFF ∨ (finalCal works).BestPWD = 0xFF := by
    rcases s5 with ⟨b1, _⟩ | ⟨b1, _, b3, b4, _⟩
    · exact Or.inl b1
    · right
      by_contra hne
      have := (rowMin_eq_sentinel_iff works _).1 (hrow _ b3) (finalCal works).BestPWD (by omega)
      rw [b1] at this
      exact absurd this (by decide)
  rcases runWith_out works with ⟨h1, h2, _⟩ | ⟨_, o1, o2, o3⟩
  · rcases hinit with h | h
    · exact absurd h h1
    · exact absurd h h2
  · refine ⟨o1, o2, o3, ht, ?_, ?_⟩
    · rw [runWith_matrix]
      exact s1
    · intro L hL
      rw [runWith_matrix, s2 L hL]
      exact hrow L hL

/-- The pair a run writes is `(0xFF, 0xFF)` or a pair that was tried and succeeded. -/
theorem run_out_works (works : Nat → Nat → Bool) :
    ((runWith works).OutLAT = 0xFF ∧ (runWith works).OutPWD = 0xFF) ∨
      (works (runWith works).OutLAT (runWith works).OutPWD = true ∧
        ((runWith works).OutLAT, (runWith works).OutPWD) ∈ trials (runWith works)) := by
  rcases runWith_out works with ⟨h1, h2, o1, o2, _⟩ | ⟨_, o1, o2, _⟩
  · right
    rw [o1, o2]
    rcases final_best works with ⟨b1, _⟩ | ⟨b1, b2, _⟩
    · exact absurd b1 h1
    · refine ⟨b1, ?_⟩
      unfold trials
      rw [runWith_hw, List.mem_reverse]
      exact b2
  · exact Or.inl ⟨o1, o2⟩

/-! ## Events on the bus -/

theorem BusExt_refl (P : BusEvent → Prop) (b : Bus) : BusExt P b b :=
  ⟨[], rfl, fun _ h => absurd h (List.not_mem_nil _), rfl⟩

theorem BusExt_trans (P : BusEvent → Prop) (a b c : Bus) (h1 : BusExt P a b)
    (h2 : BusExt P b c) : BusExt P a c := by
  obtain ⟨e1, l1, p1, f1⟩ := h1
  obtain ⟨e2, l2, p2, f2⟩ := h2
  refine ⟨e2 ++ e1, ?_, ?_, ?_⟩
  · rw [l2, l1, List.append_assoc]
  · intro e he
    rcases List.mem_append.1 he with h | h
    · exact p2 e h
    · exact p1 e h
  · rw [f2, f1]

theorem BusExt_mono (P Q : BusEvent → Prop) (hPQ : ∀ e, P e → Q e) (a b : Bus)
    (h : BusExt P a b) : BusExt Q a b := by
  obtain ⟨es, l, p, f⟩ := h
  exact ⟨es, l, fun e he => hPQ e (p e he), f⟩

theorem asserts_of_inBounds (Offset Len : Nat) (h : inBounds Offset Len) :
    CartDom1ReadAsserts false Offset Len = true := by
  obtain ⟨h1, h2, h3⟩ := h
  unfold CART_DOM1_SIZE at h1 h3
  have h4 : u32 (Offset + Len) = Offset + Len := by
    unfold u32
    omega
  unfold CartDom1ReadAsserts
  rw [h4]
  simp only [CART_DOM1_SIZE, Bool.not_false, Bool.true_and, Bool.and_eq_true, decide_eq_true_eq]
  exact ⟨⟨h1, h2⟩, h3⟩

theorem CartDom1Read_ext (P : BusEvent → Prop) (dev : Device) (b : Bus) (Offset Len : Nat)
    (h : inBounds Offset Len) (hP : P (BusEvent.read Offset Len)) :
    BusExt P b (CartDom1Read dev b false Offset Len).2 := by
  unfold CartDom1Read
  rw [if_pos (asserts_of_inBounds Offset Len h)]
  refine ⟨[BusEvent.read Offset Len], rfl, ?_, rfl⟩
  intro e he
  rw [List.mem_singleton.1 he]
  exact hP

theorem SetDom1Speed_ext (P : BusEvent → Prop) (b : Bus) (LAT PWD PGS RLS : Nat)
    (hP : P (BusEvent.speed LAT PWD PGS RLS)) : BusExt P b (SetDom1Speed b LAT PWD PGS RLS) := by
  refine ⟨[BusEvent.speed LAT PWD PGS RLS], rfl, ?_, rfl⟩
  intro e he
  rw [List.mem_singleton.1 he]
  exact hP

theorem inBounds_block (i : Nat) (hi : i < 4) : inBounds (128 * i) 128 := by
  unfold inBounds CART_DOM1_SIZE
  omega

theorem CartDetectPresence_ext (dev : Device) (b : Bus) :
    BusExt okWord b (CartDetectPresence dev b).2 := by
  show BusExt okWord b (presenceReads dev b).2
  rw [presenceReads_bus]
  refine ⟨[BusEvent.read 12 4, BusEvent.read 8 4, BusEvent.read 4 4, BusEvent.read 0 4],
    rfl, ?_, rfl⟩
  intro e he
  simp only [List.mem_cons, List.mem_singleton, List.not_mem_nil, or_false] at he
  rcases he with h | h | h | h <;> subst h <;>
    exact ⟨⟨by decide, by decide, by decide⟩, rfl⟩

theorem CartReadName_ext (dev : Device) (b : Bus) (nb : List Nat) :
    BusExt okBlock b (CartReadName dev b false nb 21).2.2 := by
  rw [CartReadName_bus]
  refine ⟨[BusEvent.read 0x20 32], rfl, ?_, rfl⟩
  intro e he
  rw [List.mem_singleton.1 he]
  exact ⟨⟨by decide, by decide, by decide⟩, rfl⟩

theorem ReadReferenceData_ext (dev : Device) (hw : Hw) :
    BusExt okBlock hw.bus (ReadReferenceData dev hw).bus := by
  rw [ReadReferenceData_bus]
  refine ⟨[BusEvent.read 384 128, BusEvent.read 256 128, BusEvent.read 128 128,
    BusEvent.read 0 128, BusEvent.speed 0xFF 0xFF 0x07 0x03], rfl, ?_, rfl⟩
  intro e he
  simp only [List.mem_cons, List.mem_singleton, List.not_mem_nil, or_false] at he
  rcases he with h | h | h | h | h <;> subst h
  · exact ⟨⟨by decide, by decide, by decide⟩, rfl⟩
  · exact ⟨⟨by decide, by decide, by decide⟩, rfl⟩
  · exact ⟨⟨by decide, by decide, by decide⟩, rfl⟩
  · exact ⟨⟨by decide, by decide, by decide⟩, rfl⟩
  · exact trivial

theorem TestSpeedLoop_ext (dev : Device) (ref : List (List Nat)) (l : List Nat) :
    (∀ i, i ∈ l → i < 4) → ∀ b, BusExt okBlock b (TestSpeedLoop dev ref l b).2 := by
  induction l with
  | nil =>
    intro _ b
    exact BusExt_refl _ b
  | cons i rest ih =>
    intro hl b
    have hi : i < 4 := hl i (List.mem_cons_self _ _)
    have hoff : u32 (u32 (CART_DOM1_START + i * ADDRESS_SPACING) + 4294967296 - CART_DOM1_START)
        = 128 * i := by
      unfold u32 CART_DOM1_START ADDRESS_SPACING
      omega
    have hr := CartDom1Read_ext okBlock dev b (128 * i) 128 (inBounds_block i hi)
      ⟨inBounds_block i hi, rfl⟩
    rw [TestSpeedLoop]
    simp only [hoff, BYTES_PER_LOCATION]
    split
    · exact hr
    · exact BusExt_trans _ _ _ _ hr (ih (fun j hj => hl j (List.mem_cons_of_mem _ hj)) _)

theorem TestSpeed_ext (dev : Device) (hw : Hw) (LAT PWD : Nat) :
    BusExt okBlock hw.bus (TestSpeed dev hw LAT PWD).2.bus := by
  unfold TestSpeed
  simp only
  refine BusExt_trans _ _ _ _ (SetDom1Speed_ext okBlock hw.bus LAT PWD 0x07 0x03 trivial) ?_
  apply TestSpeedLoop_ext
  intro i hi
  exact List.mem_range.1 hi

/-! ## What `RunSpeedTest` preserves, whatever the hardware -/

theorem pwdBody_hw_eq {σ : Type} (ops : SpeedOps σ) (L P : Nat) (c : Cal σ) :
    (pwdBody ops L c P).hw = (ops.TestSpeed (u8 L) (u8 P) c.hw).2 := by
  unfold pwdBody
  simp only
  split
  · split <;> rfl
  · rfl

theorem foldl_pwdBody_rel {σ : Type} (ops : SpeedOps σ) (R : σ → σ → Prop)
    (hrefl : ∀ s, R s s) (htrans : ∀ a b c, R a b → R b c → R a c)
    (h2 : ∀ L P s, R s (ops.TestSpeed L P s).2) (L : Nat) (l : List Nat) :
    ∀ c : Cal σ, R c.hw (l.foldl (pwdBody ops L) c).hw := by
  induction l with
  | nil =>
    intro c
    exact hrefl _
  | cons P rest ih =>
    intro c
    rw [List.foldl_cons]
    refine htrans _ _ _ ?_ (ih _)
    rw [pwdBody_hw_eq]
    exact h2 _ _ _

theorem latBody_hw {σ : Type} (ops : SpeedOps σ) (L : Nat) (c : Cal σ) :
    (latBody ops L c).1.hw = (pwdLoop ops L c).hw := by
  by_cases h : (latBody ops L c).2 = true
  · rw [latBody_fst_of_true ops L c h]
  · have h2 : (latBody ops L c).2 = false := by simpa using h
    rw [latBody_fst_of_false ops L c h2]

theorem latLoop_rel {σ : Type} (ops : SpeedOps σ) (R : σ → σ → Prop)
    (hrefl : ∀ s, R s s) (htrans : ∀ a b c, R a b → R b c → R a c)
    (h2 : ∀ L P s, R s (ops.TestSpeed L P s).2) (n : Nat) :
    ∀ (L : Nat) (c : Cal σ), R c.hw (latLoop ops n L c).hw := by
  induction n with
  | zero =>
    intro L c
    exact hrefl _
  | succ n ih =>
    intro L c
    have hb : R c.hw (latBody ops L c).1.hw := by
      rw [latBody_hw]
      exact foldl_pwdBody_rel ops R hrefl htrans h2 L _ c
    rw [latLoop]
    split
    · exact hb
    · exact htrans _ _ _ hb (ih _ _)

theorem selectResult_hw {σ : Type} (c : Cal σ) : (selectResult c).hw = c.hw := by
  unfold selectResult
  split <;> rfl

theorem selectResult_matrix {σ : Type} (c : Cal σ) :
    (selectResult c).MinPWDForLAT = c.MinPWDForLAT := by
  unfold selectResult
  split <;> rfl

theorem RunSpeedTest_rel {σ : Type} (ops : SpeedOps σ) (R : σ → σ → Prop)
    (hrefl : ∀ s, R s s) (htrans : ∀ a b c, R a b → R b c → R a c)
    (h1 : ∀ s, R s (ops.ReadReferenceData s))
    (h2 : ∀ L P s, R s (ops.TestSpeed L P s).2) (M : List Nat) (s : σ) :
    R s (RunSpeedTest ops M s).hw := by
  unfold RunSpeedTest
  rw [selectResult_hw]
  exact htrans _ _ _ (h1 s) (latLoop_rel ops R hrefl htrans h2 256 0 (calInit ops M s))

theorem RunSpeedTest_ext (dev : Device) (M : List Nat) (hw : Hw) :
    BusExt okBlock hw.bus (RunSpeedTest (busOps dev) M hw).hw.bus :=
  RunSpeedTest_rel (busOps dev) (fun a b => BusExt okBlock a.bus b.bus)
    (fun s => BusExt_refl _ s.bus) (fun _ _ _ h1 h2 => BusExt_trans _ _ _ _ h1 h2)
    (fun s => ReadReferenceData_ext dev s) (fun L P s => TestSpeed_ext dev s L P) M hw

theorem waitRemoved_ext (dev : Device) (fuel : Nat) :
    ∀ b b1, waitRemoved dev fuel b = some b1 → BusExt okWord b b1 := by
  induction fuel with
  | zero =>
    intro b b1 h
    simp [waitRemoved] at h
  | succ fuel ih =>
    intro b b1 h
    rw [waitRemoved] at h
    split at h
    · exact BusExt_trans _ _ _ _ (CartDetectPresence_ext dev b) (ih _ _ h)
    · rw [← Option.some.inj h]
      exact CartDetectPresence_ext dev b

theorem ext_block (a b : Bus) (h : BusExt okBlock a b) : BusExt okEvent a b :=
  BusExt_mono okBlock okEvent (fun _ he => Or.inl he) a b h

theorem ext_word (a b : Bus) (h : BusExt okWord a b) : BusExt okEvent a b :=
  BusExt_mono okWord okEvent (fun _ he => Or.inr he) a b h

theorem HandleStateMachine_ext (emu : Bool) (fuel : Nat) (dev : Device) (m m1 : Machine)
    (h : HandleStateMachine emu fuel dev m = some m1) : BusExt okEvent m.hw.bus m1.hw.bus := by
  unfold HandleStateMachine at h
  cases hs : m.CurrentState with
  | STATE_INIT =>
    simp only [hs] at h
    rw [← Option.some.inj h]
    exact ext_block _ _ (SetDom1Speed_ext okBlock _ _ _ _ _ trivial)
  | STATE_SAFE_REMOVE =>
    simp only [hs] at h
    cases emu with
    | true =>
      simp only [if_true] at h
      rw [← Option.some.inj h]
      exact BusExt_refl _ _
    | false =>
      simp only [Bool.false_eq_true, if_false] at h
      cases hw : waitRemoved dev fuel m.hw.bus with
      | none => simp [hw] at h
      | some b =>
        simp only [hw] at h
        rw [← Option.some.inj h]
        exact ext_word _ _ (waitRemoved_ext dev fuel _ _ hw)
  | STATE_DETECT =>
    simp only [hs] at h
    split at h
    · rw [← Option.some.inj h]
      exact ext_word _ _ (CartDetectPresence_ext dev _)
    · rw [← Option.some.inj h]
      exact BusExt_trans _ _ _ _ (ext_word _ _ (CartDetectPresence_ext dev _))
        (ext_block _ _ (CartReadName_ext dev _ m.CartridgeName))
  | STATE_TEST =>
    simp only [hs] at h
    split at h
    · rw [← Option.some.inj h]
      exact ext_word _ _ (CartDetectPresence_ext dev _)
    · cases emu with
      | true => simp at h
      | false =>
        simp only [Bool.false_eq_true, if_false] at h
        rw [← Option.some.inj h]
        have e1 := ext_word _ _ (CartDetectPresence_ext dev m.hw.bus)
        have e2 := ext_block _ _ (RunSpeedTest_ext dev m.MinPWDForLAT
          (Hw.mk (CartDetectPresence dev m.hw.bus).2 m.hw.ReferenceData))
        generalize RunSpeedTest (busOps dev) m.MinPWDForLAT
          (Hw.mk (CartDetectPresence dev m.hw.bus).2 m.hw.ReferenceData) = r at e2 ⊢
        have e3 := ext_block _ _
          (SetDom1Speed_ext okBlock r.hw.bus r.OutLAT r.OutPWD 0x07 0x03 trivial)
        have e4 := ext_block _ _ (CartDom1Read_ext okBlock dev
          (SetDom1Speed r.hw.bus r.OutLAT r.OutPWD 0x07 0x03) 0 128
          ⟨by decide, by decide, by decide⟩ ⟨⟨by decide, by decide, by decide⟩, rfl⟩)
        have e5 := ext_block _ _ (SetDom1Speed_ext okBlock
          (CartDom1Read dev (SetDom1Speed r.hw.bus r.OutLAT r.OutPWD 0x07 0x03) false 0 128).2
          0xFF 0xFF 0x07 0x03 trivial)
        exact BusExt_trans _ _ _ _ e1 (BusExt_trans _ _ _ _ e2
          (BusExt_trans _ _ _ _ e3 (BusExt_trans _ _ _ _ e4 e5)))

theorem HandleStateMachine_words_then_blocks (emu : Bool) (fuel : Nat) (dev : Device)
    (m m1 : Machine) (h : HandleStateMachine emu fuel dev m = some m1) :
    ∃ mid, BusExt okWord m.hw.bus mid ∧ BusExt okBlock mid m1.hw.bus ∧
      (m.CurrentState = test_state_t.STATE_DETECT ∨ m.CurrentState = test_state_t.STATE_TEST →
        mid = (CartDetectPresence dev m.hw.bus).2) := by
  unfold HandleStateMachine at h
  cases hs : m.CurrentState with
  | STATE_INIT =>
    simp only [hs] at h
    rw [← Option.some.inj h]
    refine ⟨m.hw.bus, BusExt_refl _ _, SetDom1Speed_ext okBlock _ _ _ _ _ trivial, ?_⟩
    rintro (e | e) <;> exact absurd e (by decide)
  | STATE_SAFE_REMOVE =>
    simp only [hs] at h
    cases emu with
    | true =>
      simp only [if_true] at h
      rw [← Option.some.inj h]
      refine ⟨m.hw.bus, BusExt_refl _ _, BusExt_refl _ _, ?_⟩
      rintro (e | e) <;> exact absurd e (by decide)
    | false =>
      simp only [Bool.false_eq_true, if_false] at h
      cases hw : waitRemoved dev fuel m.hw.bus with
      | none => simp [hw] at h
      | some b =>
        simp only [hw] at h
        rw [← Option.some.inj h]
        refine ⟨b, waitRemoved_ext dev fuel _ _ hw, BusExt_refl _ _, ?_⟩
        rintro (e | e) <;> exact absurd e (by decide)
  | STATE_DETECT =>
    simp only [hs] at h
    split at h
    · rw [← Option.some.inj h]
      exact ⟨_, CartDetectPresence_ext dev _, BusExt_refl _ _, fun _ => rfl⟩
    · rw [← Option.some.inj h]
      exact ⟨_, CartDetectPresence_ext dev _, CartReadName_ext dev _ m.CartridgeName,
        fun _ => rfl⟩
  | STATE_TEST =>
    simp only [hs] at h
    split at h
    · rw [← Option.some.inj h]
      exact ⟨_, CartDetectPresence_ext dev _, BusExt_refl _ _, fun _ => rfl⟩
    · cases emu with
      | true => simp at h
      | false =>
        simp only [Bool.false_eq_true, if_false] at h
        rw [← Option.some.inj h]
        refine ⟨_, CartDetectPresence_ext dev m.hw.bus, ?_, fun _ => rfl⟩
        have e2 := RunSpeedTest_ext dev m.MinPWDForLAT
          (Hw.mk (CartDetectPresence dev m.hw.bus).2 m.hw.ReferenceData)
        generalize RunSpeedTest (busOps dev) m.MinPWDForLAT
          (Hw.mk (CartDetectPresence dev m.hw.bus).2 m.hw.ReferenceData) = r at e2 ⊢
        have e3 := SetDom1Speed_ext okBlock r.hw.bus r.OutLAT r.OutPWD 0x07 0x03 trivial
        have e4 := CartDom1Read_ext okBlock dev
          (SetDom1Speed r.hw.bus r.OutLAT r.OutPWD 0x07 0x03) 0 128
          ⟨by decide, by decide, by decide⟩ ⟨⟨by decide, by decide, by decide⟩, rfl⟩
        have e5 := SetDom1Speed_ext okBlock
          (CartDom1Read dev (SetDom1Speed r.hw.bus r.OutLAT r.OutPWD 0x07 0x03) false 0 128).2
          0xFF 0xFF 0x07 0x03 trivial
        exact BusExt_trans _ _ _ _ e2
          (BusExt_trans _ _ _ _ e3 (BusExt_trans _ _ _ _ e4 e5))

/-! ## Hardware with a fixed trial outcome behaves like the outcome function -/

theorem initMatrix_eq (M : List Nat) (hlen : M.length = 256) :
    initMatrix M = List.replicate 256 0xFF := by
  apply List.ext_getElem
  · rw [initMatrix_length M hlen, List.length_replicate]
  · intro i h1 h2
    have hi : i < 256 := by
      rw [initMatrix_length M hlen] at h1
      exact h1
    have := initMatrix_entry M hlen i hi
    unfold getEntry at this
    rw [List.getD_eq_getElem?_getD, List.getElem?_eq_getElem h1] at this
    simp only [Option.getD_some] at this
    rw [this, List.getElem_replicate]

theorem pwdBody_sim {σ : Type} (ops : SpeedOps σ) (works : Nat → Nat → Bool) (I : σ → Prop)
    (hstep : ∀ L P s, I s → I (ops.TestSpeed L P s).2 ∧ (ops.TestSpeed L P s).1 = works L P)
    (L P : Nat) (c : Cal σ) (d : Cal (List (Nat × Nat))) (h : SimCal I c d) :
    SimCal I (pwdBody ops L c P) (pwdBody (oracle works) L d P) := by
  obtain ⟨h1, h2, h3, h4, h5⟩ := h
  obtain ⟨s1, s2⟩ := hstep (u8 L) (u8 P) c.hw h5
  unfold SimCal
  rw [pwdBody_hw_eq]
  refine ⟨?_, ?_, ?_, ?_, s1⟩
  all_goals
    unfold pwdBody oracle
    simp only [s2, h1, h2, h3, h4]
    split
    · split <;> rfl
    · rfl

theorem foldl_pwdBody_sim {σ : Type} (ops : SpeedOps σ) (works : Nat → Nat → Bool)
    (I : σ → Prop)
    (hstep : ∀ L P s, I s → I (ops.TestSpeed L P s).2 ∧ (ops.TestSpeed L P s).1 = works L P)
    (L : Nat) (l : List Nat) :
    ∀ (c : Cal σ) (d : Cal (List (Nat × Nat))), SimCal I c d →
      SimCal I (l.foldl (pwdBody ops L) c) (l.foldl (pwdBody (oracle works) L) d) := by
  induction l with
  | nil =>
    intro c d h
    exact h
  | cons P rest ih =>
    intro c d h
    rw [List.foldl_cons, List.foldl_cons]
    exact ih _ _ (pwdBody_sim ops works I hstep L P c d h)

theorem latBody_sim {σ : Type} (ops : SpeedOps σ) (works : Nat → Nat → Bool) (I : σ → Prop)
    (hstep : ∀ L P s, I s → I (ops.TestSpeed L P s).2 ∧ (ops.TestSpeed L P s).1 = works L P)
    (L : Nat) (c : Cal σ) (d : Cal (List (Nat × Nat))) (h : SimCal I c d) :
    (latBody ops L c).2 = (latBody (oracle works) L d).2 ∧
      SimCal I (latBody ops L c).1 (latBody (oracle works) L d).1 := by
  have hp : SimCal I (pwdLoop ops L c) (pwdLoop (oracle works) L d) :=
    foldl_pwdBody_sim ops works I hstep L (List.range 256) c d h
  obtain ⟨p1, p2, p3, p4, p5⟩ := hp
  have hflag : (latBody ops L c).2 = (latBody (oracle works) L d).2 := by
    by_cases hf : (latBody (oracle works) L d).2 = true
    · rw [hf, latBody_snd, p1]
      exact (latBody_snd _ L d).1 hf
    · have hf2 : (latBody (oracle works) L d).2 = false := by simpa using hf
      rw [hf2]
      by_contra hc
      have hc2 : (latBody ops L c).2 = true := by simpa using hc
      rw [latBody_snd, p1] at hc2
      exact hf ((latBody_snd _ L d).2 hc2)
  refine ⟨hflag, ?_⟩
  by_cases hf : (latBody (oracle works) L d).2 = true
  · rw [latBody_fst_of_true _ L d hf, latBody_fst_of_true _ L c (hflag.trans hf)]
    exact ⟨by simp only [p1], p2, p3, p4, p5⟩
  · have hf2 : (latBody (oracle works) L d).2 = false := by simpa using hf
    rw [latBody_fst_of_false _ L d hf2, latBody_fst_of_false _ L c (hflag.trans hf2)]
    exact ⟨p1, p2, p3, p4, p5⟩

theorem latLoop_sim {σ : Type} (ops : SpeedOps σ) (works : Nat → Nat → Bool) (I : σ → Prop)
    (hstep : ∀ L P s, I s → I (ops.TestSpeed L P s).2 ∧ (ops.TestSpeed L P s).1 = works L P)
    (n : Nat) :
    ∀ (L : Nat) (c : Cal σ) (d : Cal (List (Nat × Nat))), SimCal I c d →
      SimCal I (latLoop ops n L c) (latLoop (oracle works) n L d) := by
  induction n with
  | zero =>
    intro L c d h
    exact h
  | succ n ih =>
    intro L c d h
    obtain ⟨hf, hs⟩ := latBody_sim ops works I hstep L c d h
    rw [latLoop, latLoop, hf]
    split
    · exact hs
    · exact ih _ _ _ hs

/-- On hardware whose trials have the fixed outcome `works`, `RunSpeedTest` ends with the
matrix, the output parameters and the level of the run against `works`. -/
theorem RunSpeedTest_of_fixed_outcome {σ : Type} (ops : SpeedOps σ)
    (works : Nat → Nat → Bool) (I : σ → Prop)
    (hstep : ∀ L P s, I s → I (ops.TestSpeed L P s).2 ∧ (ops.TestSpeed L P s).1 = works L P)
    (M : List Nat) (hM : M.length = 256) (s : σ) (hs : I (ops.ReadReferenceData s)) :
    (RunSpeedTest ops M s).MinPWDForLAT = (runWith works).MinPWDForLAT ∧
      (RunSpeedTest ops M s).OutLAT = (runWith works).OutLAT ∧
      (RunSpeedTest ops M s).OutPWD = (runWith works).OutPWD ∧
      (RunSpeedTest ops M s).level = (runWith works).level ∧
      I (RunSpeedTest ops M s).hw := by
  have h0 : SimCal I (calInit ops M s) (calInit (oracle works) (List.replicate 256 0) []) := by
    unfold SimCal
    rw [calInit_matrix, calInit_matrix, initMatrix_eq M hM,
      initMatrix_eq _ (List.length_replicate _ _)]
    exact ⟨rfl, rfl, rfl, rfl, hs⟩
  obtain ⟨f1, f2, f3, f4, f5⟩ := latLoop_sim ops works I hstep 256 0 _ _ h0
  show (selectResult (latLoop ops 256 0 (calInit ops M s))).MinPWDForLAT =
      (selectResult (finalCal works)).MinPWDForLAT ∧
    (selectResult (latLoop ops 256 0 (calInit ops M s))).OutLAT =
      (selectResult (finalCal works)).OutLAT ∧
    (selectResult (latLoop ops 256 0 (calInit ops M s))).OutPWD =
      (selectResult (finalCal works)).OutPWD ∧
    (selectResult (latLoop ops 256 0 (calInit ops M s))).level =
      (selectResult (finalCal works)).level ∧
    I (selectResult (latLoop ops 256 0 (calInit ops M s))).hw
  have g1 : (latLoop ops 256 0 (calInit ops M s)).MinPWDForLAT =
      (finalCal works).MinPWDForLAT := f1
  have g2 : (latLoop ops 256 0 (calInit ops M s)).BestLAT = (finalCal works).BestLAT := f2
  have g3 : (latLoop ops 256 0 (calInit ops M s)).BestPWD = (finalCal works).BestPWD := f3
  rw [selectResult_matrix, selectResult_matrix, selectResult_hw]
  refine ⟨g1, ?_, ?_, ?_, f5⟩
  all_goals
    unfold selectResult
    rw [g2, g3]
    split <;> rfl

theorem CartDom1Read_regs (dev : Device) (b : Bus) (n : Bool) (Offset Len : Nat) :
    (CartDom1Read dev b n Offset Len).2.regs = b.regs := by
  unfold CartDom1Read
  split <;> rfl

theorem CartDom1Read_data_indep (dev : Device) (hd : Deterministic dev) (b b1 : Bus)
    (hr : b.regs = b1.regs) (n : Bool) (Offset Len : Nat) :
    (CartDom1Read dev b n Offset Len).1 = (CartDom1Read dev b1 n Offset Len).1 := by
  have hdev : dev b.transfers = dev b1.transfers := by
    funext t o l i
    exact hd _ _ t o l i
  unfold CartDom1Read
  rw [hdev, hr]
  split <;> rfl

theorem TestSpeedLoop_fst_indep (dev : Device) (hd : Deterministic dev)
    (ref : List (List Nat)) (l : List Nat) :
    ∀ b b1 : Bus, b.regs = b1.regs →
      (TestSpeedLoop dev ref l b).1 = (TestSpeedLoop dev ref l b1).1 := by
  induction l with
  | nil =>
    intro b b1 _
    rfl
  | cons i rest ih =>
    intro b b1 hr
    rw [TestSpeedLoop, TestSpeedLoop]
    rw [CartDom1Read_data_indep dev hd b b1 hr]
    split
    · rfl
    · apply ih
      rw [CartDom1Read_regs, CartDom1Read_regs, hr]

theorem TestSpeed_fst_indep (dev : Device) (hd : Deterministic dev) (hw hw1 : Hw)
    (href : hw.ReferenceData = hw1.ReferenceData) (LAT PWD : Nat) :
    (TestSpeed dev hw LAT PWD).1 = (TestSpeed dev hw1 LAT PWD).1 := by
  unfold TestSpeed
  simp only
  rw [href]
  exact TestSpeedLoop_fst_indep dev hd _ _ _ _ rfl

theorem TestSpeed_ReferenceData (dev : Device) (hw : Hw) (LAT PWD : Nat) :
    (TestSpeed dev hw LAT PWD).2.ReferenceData = hw.ReferenceData := by
  unfold TestSpeed
  simp only

/-- For a device whose reads depend on the timing, the offset and the length alone, the
run of `RunSpeedTest` on the bus ends with the matrix, the output parameters and the
level of the run against the outcome function of the device. -/
theorem RunSpeedTest_on_bus (dev : Device) (hd : Deterministic dev) (M : List Nat)
    (hM : M.length = 256) (hw : Hw) :
    (RunSpeedTest (busOps dev) M hw).MinPWDForLAT =
        (runWith (worksOn dev (ReadReferenceData dev hw).ReferenceData)).MinPWDForLAT ∧
      (RunSpeedTest (busOps dev) M hw).OutLAT =
        (runWith (worksOn dev (ReadReferenceData dev hw).ReferenceData)).OutLAT ∧
      (RunSpeedTest (busOps dev) M hw).OutPWD =
        (runWith (worksOn dev (ReadReferenceData dev hw).ReferenceData)).OutPWD ∧
      (RunSpeedTest (busOps dev) M hw).level =
        (runWith (worksOn dev (ReadReferenceData dev hw).ReferenceData)).level ∧
      (RunSpeedTest (busOps dev) M hw).hw.ReferenceData =
        (ReadReferenceData dev hw).ReferenceData := by
  apply RunSpeedTest_of_fixed_outcome (busOps dev)
    (worksOn dev (ReadReferenceData dev hw).ReferenceData)
    (fun s => s.ReferenceData = (ReadReferenceData dev hw).ReferenceData) ?_ M hM hw rfl
  intro L P s hs
  refine ⟨?_, ?_⟩
  · show (TestSpeed dev s L P).2.ReferenceData = _
    rw [TestSpeed_ReferenceData]
    exact hs
  · show (TestSpeed dev s L P).1 = _
    unfold worksOn
    exact TestSpeed_fst_indep dev hd s
      (Hw.mk (Bus.mk (Timing.mk 0 0 0 0) 0 [] false) (ReadReferenceData dev hw).ReferenceData)
      hs L P

/-! ## The steps of the session state machine -/

theorem CartDom1Read_of_asserts (dev : Device) (b : Bus) (Offset Len : Nat)
    (h : CartDom1ReadAsserts false Offset Len = true) :
    CartDom1Read dev b false Offset Len =
      ((List.range Len).map (fun i => u8 (dev b.transfers b.regs Offset Len i)),
        Bus.mk b.regs (b.transfers + 1) (BusEvent.read Offset Len :: b.log) b.assertFailed) := by
  unfold CartDom1Read
  rw [if_pos h]

theorem getD_map_range (f : Nat → Nat) (n i : Nat) (hi : i < n) :
    ((List.range n).map f).getD i 0 = f i := by
  rw [List.getD_eq_getElem?_getD, List.getElem?_map, List.getElem?_range hi]
  rfl

theorem CartReadName_fst (dev : Device) (b : Bus) (nb : List Nat) :
    (CartReadName dev b false nb 21).1 = true ↔ ∃ i, i < 20 ∧ printable (nameByte dev b i) := by
  have hc : ¬ (false = true ∨ 21 < 21) := by decide
  unfold CartReadName
  rw [if_neg hc]
  simp only
  rw [CartDom1Read_of_asserts dev b 0x20 32 (by decide)]
  simp only [List.any_eq_true, List.mem_range, decide_eq_true_eq]
  constructor
  · rintro ⟨i, hi, h1, h2⟩
    rw [getD_map_range _ 32 i (by omega)] at h1 h2
    exact ⟨i, hi, h1, h2⟩
  · rintro ⟨i, hi, h1, h2⟩
    refine ⟨i, hi, ?_⟩
    rw [getD_map_range _ 32 i (by omega)]
    exact ⟨h1, h2⟩

theorem HandleStateMachine_detect (emu : Bool) (fuel : Nat) (dev : Device) (m : Machine)
    (hs : m.CurrentState = test_state_t.STATE_DETECT) :
    HandleStateMachine emu fuel dev m =
      if (CartDetectPresence dev m.hw.bus).1 = false then
        some (Machine.mk test_state_t.STATE_DETECT m.FirstInit m.CartridgeName m.MinPWDForLAT
          (Hw.mk (CartDetectPresence dev m.hw.bus).2 m.hw.ReferenceData))
      else
        some (Machine.mk
          (if (CartReadName dev (CartDetectPresence dev m.hw.bus).2 false m.CartridgeName 21).1
            then test_state_t.STATE_TEST else test_state_t.STATE_DETECT)
          m.FirstInit
          (CartReadName dev (CartDetectPresence dev m.hw.bus).2 false m.CartridgeName 21).2.1
          m.MinPWDForLAT
          (Hw.mk (CartReadName dev (CartDetectPresence dev m.hw.bus).2 false m.CartridgeName 21).2.2
            m.hw.ReferenceData)) := by
  unfold HandleStateMachine
  simp only [hs]

/-! ## The reported pair -/

theorem final_trials (works : Nat → Nat → Bool) :
    ∃ n, n ≤ 256 ∧ (finalCal works).hw = (sweepTrials n).reverse ∧
      ∀ L, L < n → swept works L := by
  rcases run_cases_upto works 256 with ⟨d, hd⟩ | ⟨K, d, hK, hd, hf⟩
  · refine ⟨256, Nat.le_refl _, (final_full_spec works d hd).2.2.2.1, ?_⟩
    intro L hL
    exact head_some_of_le works 256 d hd L (by omega)
  · refine ⟨K + 1, by omega, (final_break_spec works K d hK hd hf).2.2.2.1, ?_⟩
    intro L hL
    exact head_some_of_le works K d hd L (by omega)

/-- A best pair found by the sweep is the least working pulse width of its row. -/
theorem best_pwd_eq_rowMin (works : Nat → Nat → Bool)
    (hw : works (finalCal works).BestLAT (finalCal works).BestPWD = true)
    (hmem : ((finalCal works).BestLAT, (finalCal works).BestPWD) ∈ (finalCal works).hw)
    (hp : (finalCal works).BestPWD < 256)
    (hm : (finalCal works).BestMetric = (finalCal works).BestLAT + 2 * (finalCal works).BestPWD)
    (hmin : ∀ t ∈ (finalCal works).hw, works t.1 t.2 = true →
      (finalCal works).BestMetric ≤ t.1 + 2 * t.2) :
    swept works (finalCal works).BestLAT ∧ (finalCal works).BestLAT < 256 ∧
      rowMin works (finalCal works).BestLAT = (finalCal works).BestPWD := by
  obtain ⟨n, hn, hhw, hsw⟩ := final_trials works
  have hl : (finalCal works).BestLAT < n := by
    rw [hhw, List.mem_reverse, mem_sweepTrials] at hmem
    exact hmem.1
  refine ⟨hsw _ hl, by omega, ?_⟩
  unfold rowMin firstWorking
  cases hf : (List.range 256).find? (fun PWD => works (finalCal works).BestLAT PWD) with
  | none =>
    have := List.find?_range_eq_none.1 hf (finalCal works).BestPWD hp
    rw [hw] at this
    exact absurd this (by decide)
  | some q =>
    simp only [Option.getD_some]
    have hs := List.find?_range_eq_some.1 hf
    have hq : works (finalCal works).BestLAT q = true := hs.1
    have hmemq : ((finalCal works).BestLAT, q) ∈ (finalCal works).hw := by
      rw [hhw, List.mem_reverse, mem_sweepTrials]
      exact ⟨hl, List.mem_range.1 hs.2.1⟩
    have h1 := hmin _ hmemq hq
    rw [hm] at h1
    simp only at h1
    by_cases hlt : (finalCal works).BestPWD < q
    · have := hs.2.2 _ hlt
      rw [hw] at this
      exact absurd this (by decide)
    · omega

/-- When the pair a run writes is not `(0xFF, 0xFF)` it is the best pair of the sweep:
tried, working, with neither component `0xFF`, and recorded in the matrix. -/
theorem run_out_spec (works : Nat → Nat → Bool)
    (h : ¬ ((runWith works).OutLAT = 0xFF ∧ (runWith works).OutPWD = 0xFF)) :
    ((runWith works).OutLAT, (runWith works).OutPWD) ∈ trials (runWith works) ∧
      works (runWith works).OutLAT (runWith works).OutPWD = true ∧
      (runWith works).OutLAT ≠ 0xFF ∧ (runWith works).OutPWD ≠ 0xFF ∧
      (runWith works).OutLAT < 256 ∧ (runWith works).OutPWD < 256 ∧
      swept works (runWith works).OutLAT ∧
      (runWith works).OutPWD = getEntry (runWith works).MinPWDForLAT (runWith works).OutLAT := by
  rcases runWith_out works with ⟨h1, h2, o1, o2, _⟩ | ⟨_, o1, o2, _⟩
  · rcases final_best works with ⟨b1, _⟩ | ⟨b1, b2, b3, b4, b5, b6⟩
    · exact absurd b1 h1
    · obtain ⟨s1, s2, s3⟩ := best_pwd_eq_rowMin works b1 b2 b4 b5 b6
      rw [o1, o2]
      refine ⟨?_, b1, h1, h2, b3, b4, s1, ?_⟩
      · unfold trials
        rw [runWith_hw, List.mem_reverse]
        exact b2
      · rw [run_entry_swept works _ s2 s1, s3]
  · exact absurd ⟨o1, o2⟩ h

theorem confirm_bus (dev : Device) (b : Bus) (LAT PWD : Nat) :
    SetDom1Speed (CartDom1Read dev (SetDom1Speed b LAT PWD 0x07 0x03) false 0 128).2
        0xFF 0xFF 0x07 0x03 =
      Bus.mk (Timing.mk 0xFF 0xFF 0x07 0x03) (b.transfers + 1)
        (BusEvent.speed 0xFF 0xFF 0x07 0x03 :: BusEvent.read 0 128 ::
          BusEvent.speed LAT PWD 0x07 0x03 :: b.log) b.assertFailed := by
  rw [CartDom1Read_of_asserts dev _ 0 128 (by decide)]
  simp only [SetDom1Speed]

theorem HandleStateMachine_test_present (fuel : Nat) (dev : Device) (m : Machine)
    (hs : m.CurrentState = test_state_t.STATE_TEST)
    (hp : (CartDetectPresence dev m.hw.bus).1 = true) :
    HandleStateMachine false fuel dev m =
      some (Machine.mk test_state_t.STATE_SAFE_REMOVE m.FirstInit m.CartridgeName
        (testRun dev m).MinPWDForLAT
        (Hw.mk
          (Bus.mk (Timing.mk 0xFF 0xFF 0x07 0x03) ((testRun dev m).hw.bus.transfers + 1)
            (BusEvent.speed 0xFF 0xFF 0x07 0x03 :: BusEvent.read 0 128 ::
              BusEvent.speed (testRun dev m).OutLAT (testRun dev m).OutPWD 0x07 0x03 ::
              (testRun dev m).hw.bus.log)
            (testRun dev m).hw.bus.assertFailed)
          (testRun dev m).hw.ReferenceData)) := by
  have hp2 : ¬ (CartDetectPresence dev m.hw.bus).1 = false := by
    rw [hp]
    decide
  rw [← confirm_bus dev]
  unfold HandleStateMachine testRun
  simp only [hs]
  rw [if_neg hp2]
  simp only [Bool.false_eq_true, if_false]

theorem test_step_fields (r : SpeedResult Hw) (fi : Bool) (cn : List Nat) (m1 : Machine)
    (h : m1 = Machine.mk test_state_t.STATE_SAFE_REMOVE fi cn r.MinPWDForLAT
      (Hw.mk
        (Bus.mk (Timing.mk 0xFF 0xFF 0x07 0x03) (r.hw.bus.transfers + 1)
          (BusEvent.speed 0xFF 0xFF 0x07 0x03 :: BusEvent.read 0 128 ::
            BusEvent.speed r.OutLAT r.OutPWD 0x07 0x03 :: r.hw.bus.log)
          r.hw.bus.assertFailed)
        r.hw.ReferenceData)) :
    m1.CurrentState = test_state_t.STATE_SAFE_REMOVE ∧
      m1.hw.bus.regs = Timing.mk 0xFF 0xFF 0x07 0x03 ∧
      m1.hw.bus.log = BusEvent.speed 0xFF 0xFF 0x07 0x03 :: BusEvent.read 0 128 ::
        BusEvent.speed r.OutLAT r.OutPWD 0x07 0x03 :: r.hw.bus.log ∧
      m1.MinPWDForLAT = r.MinPWDForLAT := by
  subst h
  exact ⟨rfl, rfl, rfl, rfl⟩

theorem testRun_fixed (dev : Device) (m : Machine) (works : Nat → Nat → Bool) (I : Hw → Prop)
    (hM : m.MinPWDForLAT.length = 256)
    (hfix : FixedOutcome dev works I
      (Hw.mk (CartDetectPresence dev m.hw.bus).2 m.hw.ReferenceData)) :
    (testRun dev m).MinPWDForLAT = (runWith works).MinPWDForLAT ∧
      (testRun dev m).OutLAT = (runWith works).OutLAT ∧
      (testRun dev m).OutPWD = (runWith works).OutPWD ∧
      (testRun dev m).level = (runWith works).level := by
  obtain ⟨a, b, c, d, _⟩ := RunSpeedTest_of_fixed_outcome (busOps dev) works I
    (fun L P s hI => hfix.2 L P s hI) m.MinPWDForLAT hM
    (Hw.mk (CartDetectPresence dev m.hw.bus).2 m.hw.ReferenceData) hfix.1
  exact ⟨a, b, c, d⟩

theorem fixedOutcome_of_deterministic (dev : Device) (hd : Deterministic dev) (hw0 : Hw) :
    FixedOutcome dev (worksOn dev (ReadReferenceData dev hw0).ReferenceData)
      (fun s => s.ReferenceData = (ReadReferenceData dev hw0).ReferenceData) hw0 := by
  refine ⟨rfl, ?_⟩
  intro L P s hs
  refine ⟨?_, ?_⟩
  · show (TestSpeed dev s L P).2.ReferenceData = _
    rw [TestSpeed_ReferenceData]
    exact hs
  · unfold worksOn
    exact TestSpeed_fst_indep dev hd s
      (Hw.mk (Bus.mk (Timing.mk 0 0 0 0) 0 [] false) (ReadReferenceData dev hw0).ReferenceData)
      hs L P

/-- When the pair `(0, 0)` works it is the pair the run writes. -/
theorem run_out_zero (works : Nat → Nat → Bool) (h : works 0 0 = true) :
    (runWith works).OutLAT = 0 ∧ (runWith works).OutPWD = 0 := by
  have hmem : ((0, 0) : Nat × Nat) ∈ (finalCal works).hw := by
    have := (swept_iff_tried works 0 (by decide)).1 (swept_zero works)
    unfold trials at this
    rw [runWith_hw, List.mem_reverse] at this
    exact this
  have hbest : (finalCal works).BestLAT = 0 ∧ (finalCal works).BestPWD = 0 := by
    rcases final_best works with ⟨_, _, _, hnone⟩ | ⟨_, _, _, _, b5, b6⟩
    · have := hnone (0, 0) hmem
      rw [h] at this
      exact absurd this (by decide)
    · have := b6 (0, 0) hmem h
      rw [b5] at this
      simp only at this
      omega
  rcases runWith_out works with ⟨_, _, o1, o2, _⟩ | ⟨hff, _⟩
  · rw [o1, o2]
    exact hbest
  · rcases hff with e | e
    · rw [hbest.1] at e
      exact absurd e (by decide)
    · rw [hbest.2] at e
      exact absurd e (by decide)

theorem fading_data (n : Nat) (hn : 8 ≤ n) (t : Timing) :
    (List.range 128).map (fun i => u8 (fadingDevice n t 0 128 i)) = List.replicate 128 1 := by
  have h : ¬ n < 8 := by omega
  have e : (fun i => u8 (fadingDevice n t 0 128 i)) = fun _ => 1 := by
    funext i
    simp [fadingDevice, h, u8]
  rw [e]
  decide

/-- On the fading device every trial of the state Test fails. -/
theorem fading_fixed :
    FixedOutcome fadingDevice neverWorks
      (fun s => s.ReferenceData = hwInit.ReferenceData ∧ 8 ≤ s.bus.transfers)
      (Hw.mk (CartDetectPresence fadingDevice (machineAt test_state_t.STATE_TEST).hw.bus).2
        (machineAt test_state_t.STATE_TEST).hw.ReferenceData) := by
  refine ⟨⟨?_, ?_⟩, ?_⟩
  · decide
  · rw [ReadReferenceData_bus]
    decide
  · rintro L P s ⟨hr, ht⟩
    have hrange : List.range NUM_TEST_LOCATIONS = 0 :: [1, 2, 3] := rfl
    have hoff : u32 (u32 (CART_DOM1_START + 0 * ADDRESS_SPACING) + 4294967296 - CART_DOM1_START)
        = 0 := by decide
    have hne : ¬ ((List.replicate 128 1).take 128 = ((hwInit.ReferenceData).getD 0 []).take 128) := by
      decide
    have key : TestSpeed fadingDevice s L P =
        (false, Hw.mk (Bus.mk (Timing.mk L P 0x07 0x03) (s.bus.transfers + 1)
          (BusEvent.read 0 128 :: BusEvent.speed L P 0x07 0x03 :: s.bus.log) s.bus.assertFailed)
          s.ReferenceData) := by
      unfold TestSpeed
      simp only
      rw [hrange, TestSpeedLoop]
      simp only [hoff, BYTES_PER_LOCATION]
      rw [CartDom1Read_of_asserts _ _ 0 128 (by decide)]
      simp only
      rw [fading_data _ (show 8 ≤ (SetDom1Speed s.bus L P 0x07 0x03).transfers from ht), hr]
      rw [if_pos hne]
      rfl
    rw [key]
    exact ⟨⟨hr, by show 8 ≤ s.bus.transfers + 1; omega⟩, rfl⟩

/-! ## Claims about the calibration engine -/

/-- C1 (code defect): for the device that reads correctly at latency `0xFF` only, the
sweep finds the best pair `(0xFF, 0)` and records `MinPWDForLAT[0xFF] = 0`, yet
`RunSpeedTest` writes `(0xFF, 0xFF)` to its output parameters, whose cost 765 exceeds
the cost 255 of the recorded pair. -/
theorem RunSpeedTest_drops_best_at_max_latency :
    (finalCal onlyMaxLatency).BestLAT = 0xFF ∧ (finalCal onlyMaxLatency).BestPWD = 0 ∧
      (runWith onlyMaxLatency).OutLAT = 0xFF ∧ (runWith onlyMaxLatency).OutPWD = 0xFF ∧
      getEntry (runWith onlyMaxLatency).MinPWDForLAT 255 = 0 ∧
      ¬ ((runWith onlyMaxLatency).OutLAT + 2 * (runWith onlyMaxLatency).OutPWD ≤
          255 + 2 * getEntry (runWith onlyMaxLatency).MinPWDForLAT 255) := by
  have hnone : ∀ L, L < 255 → rowMin onlyMaxLatency L = 0xFF := by
    intro L hL
    apply rowMin_of_none
    intro P _
    have : ¬ (L = 255) := by omega
    simp [onlyMaxLatency, this]
  have hsw : swept onlyMaxLatency 256 := by
    apply swept_of_no_block _ 256 (Nat.le_refl _)
    intro L _ _ h255 hb
    exact hb.1 (hnone (L - 15) (by omega))
  obtain ⟨c, hc⟩ := hsw
  obtain ⟨_, s2, _, s4, s5⟩ := final_full_spec onlyMaxLatency c hc
  have hM : getEntry (runWith onlyMaxLatency).MinPWDForLAT 255 = 0 := by
    rw [runWith_matrix, s2 255 (by omega)]
    exact rowMin_of_least _ 255 0 (by omega) (by simp [onlyMaxLatency]) (by intro P hP; omega)
  have hmem : ((255, 0) : Nat × Nat) ∈ (finalCal onlyMaxLatency).hw := by
    rw [s4, List.mem_reverse, mem_sweepTrials]
    exact ⟨by decide, by decide⟩
  have hbest : (finalCal onlyMaxLatency).BestLAT = 0xFF ∧
      (finalCal onlyMaxLatency).BestPWD = 0 := by
    rcases s5 with ⟨_, _, _, hn⟩ | ⟨b1, _, _, _, b5, b6⟩
    · have := hn (255, 0) hmem
      simp [onlyMaxLatency] at this
    · have e1 : (finalCal onlyMaxLatency).BestLAT = 255 := by
        simpa [onlyMaxLatency] using b1
      have := b6 (255, 0) hmem (by simp [onlyMaxLatency])
      rw [b5, e1] at this
      simp only at this
      exact ⟨e1, by omega⟩
  rcases runWith_out onlyMaxLatency with ⟨h1, _⟩ | ⟨_, o1, o2, _⟩
  · exact absurd hbest.1 h1
  · refine ⟨hbest.1, hbest.2, o1, o2, hM, ?_⟩
    rw [o1, o2, hM]
    decide

/-- C2 (as stated, refuted): for the device that reads correctly at the latencies
`0..15` only, `RunSpeedTest` returns with `MinPWDForLAT[16] = 0`, which is not the
sentinel, although the pair `(16, 0)` does not work. -/
theorem filled_entry_need_not_work :
    getEntry (runWith firstBlockOnly).MinPWDForLAT 16 = 0 ∧
      getEntry (runWith firstBlockOnly).MinPWDForLAT 16 ≠ 0xFF ∧
      firstBlockOnly 16 (getEntry (runWith firstBlockOnly).MinPWDForLAT 16) = false := by
  have hrow : ∀ L, L < 16 → rowMin firstBlockOnly L = 0 := by
    intro L hL
    exact rowMin_of_least _ L 0 (by omega) (by simp [firstBlockOnly, hL])
      (by intro P hP; omega)
  have hsw : swept firstBlockOnly 15 := by
    apply swept_of_no_block _ 15 (by omega)
    intro L h1 h2 _
    omega
  obtain ⟨c, hc⟩ := hsw
  have hf : (latBody (oracle firstBlockOnly) 15 c).2 = true := by
    rw [latBody_flag_iff _ 15 c (by omega) hc]
    refine ⟨by decide, by decide, ?_, ?_⟩
    · rw [hrow _ (by omega)]
      decide
    · intro i hi
      rw [hrow _ (by omega), hrow _ (by omega)]
  have h16 : getEntry (runWith firstBlockOnly).MinPWDForLAT 16 = 0 := by
    rw [runWith_matrix, (final_break_spec _ 15 c (by omega) hc hf).2.2.1 16 (by omega) (by omega)]
    exact hrow 0 (by omega)
  refine ⟨h16, ?_, ?_⟩
  · rw [h16]
    decide
  · rw [h16]
    decide

/-- C2 (amended): for every trial-outcome function and every latency `L` in `0..255`
that the sweep reached, if `MinPWDForLAT[L]` is not the sentinel `0xFF` when
`RunSpeedTest` returns, then the pair `(L, MinPWDForLAT[L])` works. -/
theorem swept_entry_works (works : Nat → Nat → Bool) (L : Nat) (hL : L < 256)
    (hs : swept works L) (hne : getEntry (runWith works).MinPWDForLAT L ≠ 0xFF) :
    works L (getEntry (runWith works).MinPWDForLAT L) = true := by
  rw [run_entry_swept works L hL hs] at hne ⊢
  exact (firstWorking_spec works L 256 hne).2.1

/-- An instance of the amended C2: the device that works at every timing, latency 0. -/
theorem swept_entry_works_witness :
    0 < 256 ∧ swept alwaysWorks 0 ∧ getEntry (runWith alwaysWorks).MinPWDForLAT 0 ≠ 0xFF ∧
      alwaysWorks 0 (getEntry (runWith alwaysWorks).MinPWDForLAT 0) = true :=
  have h0 : getEntry (runWith alwaysWorks).MinPWDForLAT 0 ≠ 0xFF := by
    rw [run_entry_swept alwaysWorks 0 (by decide) (swept_zero _),
      rowMin_of_least alwaysWorks 0 0 (by decide) rfl (by intro P hP; omega)]
    decide
  ⟨by decide, swept_zero _, h0, swept_entry_works alwaysWorks 0 (by decide) (swept_zero _) h0⟩

/-- C3: at every latency `L` the outer loop reaches, the inner loop tries the 256
pulse widths `0..255` for `L` in ascending order, and if some pulse width works for
`L` then `MinPWDForLAT[L]` equals the least one that does once the sweep of `L` is
complete, and still does when `RunSpeedTest` returns. -/
theorem row_sweep_records_least (works : Nat → Nat → Bool) (L : Nat)
    (c : Cal (List (Nat × Nat))) (hL : L < 256) (hc : headOf works L = some c) :
    (pwdLoop (oracle works) L c).hw.reverse = c.hw.reverse ++ rowTrials L ∧
      ∀ P0, P0 < 256 → works L P0 = true → (∀ P, P < P0 → works L P = false) →
        getEntry (pwdLoop (oracle works) L c).MinPWDForLAT L = P0 ∧
          getEntry (runWith works).MinPWDForLAT L = P0 := by
  have hs := head_spec works L c (by omega) hc
  obtain ⟨r1, _, _, r4, _⟩ := rowPrefix works L c hL hs.1 256 (Nat.le_refl _)
  refine ⟨?_, ?_⟩
  · unfold pwdLoop
    rw [r1, List.reverse_append, List.reverse_reverse]
    rfl
  · intro P0 hP hw hmin
    refine ⟨?_, ?_⟩
    · unfold pwdLoop
      rw [r4 (hs.2.2.1 L (Nat.le_refl _) hL)]
      exact firstWorking_of_least works L 256 P0 hP hw hmin
    · rw [run_entry_swept works L hL ⟨c, hc⟩]
      exact rowMin_of_least works L P0 hP hw hmin

/-- An instance of C3: the device that works at every timing,
latency 0, least working pulse width 0. -/
theorem row_sweep_records_least_witness :
    (pwdLoop (oracle alwaysWorks) 0 (calInit (oracle alwaysWorks) (List.replicate 256 0) [])
        ).hw.reverse =
        (calInit (oracle alwaysWorks) (List.replicate 256 0) []).hw.reverse ++ rowTrials 0 ∧
      getEntry (pwdLoop (oracle alwaysWorks) 0
        (calInit (oracle alwaysWorks) (List.replicate 256 0) [])).MinPWDForLAT 0 = 0 ∧
      getEntry (runWith alwaysWorks).MinPWDForLAT 0 = 0 :=
  have h := row_sweep_records_least alwaysWorks 0
    (calInit (oracle alwaysWorks) (List.replicate 256 0) []) (by decide) (headOf_zero _)
  ⟨h.1, h.2 0 (by decide) rfl (by intro P hP; omega)⟩

/-- C4: for every block index `k` in `0..14`, if the outer loop reaches latency
`16k+15` and, after the sweep of that latency, the sixteen entries
`MinPWDForLAT[16k..16k+15]` all equal one value `v` other than the sentinel, then the
trials of the run are exactly those of the latencies below `16(k+1)`, `4096(k+1)` in
number, and on return `MinPWDForLAT[L] = v` for every `L` in `16(k+1)..255`;
conversely, if no block meets that condition, all 65,536 pairs are tried. -/
theorem early_termination (works : Nat → Nat → Bool) :
    (∀ k c v, k < 15 → headOf works (16 * k + 15) = some c → v ≠ 0xFF →
        (∀ i, i < 16 →
          getEntry (pwdLoop (oracle works) (16 * k + 15) c).MinPWDForLAT (16 * k + i) = v) →
        trials (runWith works) = sweepTrials (16 * (k + 1)) ∧
          (trials (runWith works)).length = 4096 * (k + 1) ∧
          (∀ t, t ∈ trials (runWith works) → t.1 < 16 * (k + 1)) ∧
          ∀ L, 16 * (k + 1) ≤ L → L < 256 → getEntry (runWith works).MinPWDForLAT L = v) ∧
      ((∀ k c, k < 15 → headOf works (16 * k + 15) = some c →
          ¬ ∃ v, v ≠ 0xFF ∧ ∀ i, i < 16 →
            getEntry (pwdLoop (oracle works) (16 * k + 15) c).MinPWDForLAT (16 * k + i) = v) →
        trials (runWith works) = sweepTrials 256 ∧
          (trials (runWith works)).length = 65536 ∧
          ∀ LAT PWD, LAT < 256 → PWD < 256 → (LAT, PWD) ∈ trials (runWith works)) := by
  refine ⟨?_, ?_⟩
  · intro k c v hk hc hv hall
    have hL : 16 * k + 15 < 256 := by omega
    have hsub : 16 * k + 15 - 15 = 16 * k := by omega
    have hf : (latBody (oracle works) (16 * k + 15) c).2 = true := by
      rw [latBody_snd, rowAllSame_iff, hsub]
      have h0 : getEntry (pwdLoop (oracle works) (16 * k + 15) c).MinPWDForLAT (16 * k) = v :=
        hall 0 (by omega)
      refine ⟨by omega, ⟨by rw [h0]; exact hv, ?_⟩, by omega⟩
      intro i hi
      rw [h0]
      exact hall i hi
    have ht := trials_of_break works _ c hL hc hf
    have e : 16 * k + 15 + 1 = 16 * (k + 1) := by omega
    rw [e] at ht
    have hsp := pwdLoop_spec works _ c hL (head_spec works _ c (by omega) hc)
    have hv0 : rowMin works (16 * k) = v := by
      rw [← hsp.2.1 (16 * k) (by omega)]
      exact hall 0 (by omega)
    refine ⟨ht, ?_, ?_, ?_⟩
    · rw [ht, length_sweepTrials]
      omega
    · intro t hmem
      rw [ht, mem_sweepTrials] at hmem
      exact hmem.1
    · intro L h1 h2
      rw [runWith_matrix,
        (final_break_spec works _ c hL hc hf).2.2.1 L (by omega) h2, hsub]
      exact hv0
  · intro hno
    rcases run_cases_upto works 256 with ⟨c, hc⟩ | ⟨L, c, hL, hc, hf⟩
    · have ht := trials_of_full works c hc
      refine ⟨ht, ?_, ?_⟩
      · rw [ht, length_sweepTrials]
      · intro LAT PWD h1 h2
        rw [ht, mem_sweepTrials]
        exact ⟨h1, h2⟩
    · exfalso
      obtain ⟨h1, h2, h3⟩ := (latBody_snd _ L c).1 hf
      obtain ⟨K, rfl⟩ : ∃ K, L = 16 * K + 15 := ⟨L / 16, by omega⟩
      have hsub : 16 * K + 15 - 15 = 16 * K := by omega
      rw [rowAllSame_iff, hsub] at h2
      exact hno K c (by omega) hc ⟨_, h2.1, h2.2⟩

/-- Instances of C4: the device that works at every timing stops after
the first block with every later entry 0, and the device on which nothing works is swept
in full. -/
theorem early_termination_witness :
    (0 < 15 ∧ headOf alwaysWorks (16 * 0 + 15) = some (sweepRows alwaysWorks 15) ∧
        (0 : Nat) ≠ 0xFF ∧
        (∀ i, i < 16 → getEntry (pwdLoop (oracle alwaysWorks) (16 * 0 + 15)
          (sweepRows alwaysWorks 15)).MinPWDForLAT (16 * 0 + i) = 0)) ∧
      (trials (runWith alwaysWorks) = sweepTrials (16 * (0 + 1)) ∧
        (trials (runWith alwaysWorks)).length = 4096 * (0 + 1) ∧
        (∀ t, t ∈ trials (runWith alwaysWorks) → t.1 < 16 * (0 + 1)) ∧
        ∀ L, 16 * (0 + 1) ≤ L → L < 256 → getEntry (runWith alwaysWorks).MinPWDForLAT L = 0) ∧
      (∀ k c, k < 15 → headOf neverWorks (16 * k + 15) = some c →
        ¬ ∃ v, v ≠ 0xFF ∧ ∀ i, i < 16 →
          getEntry (pwdLoop (oracle neverWorks) (16 * k + 15) c).MinPWDForLAT (16 * k + i) = v) ∧
      (trials (runWith neverWorks) = sweepTrials 256 ∧
        (trials (runWith neverWorks)).length = 65536 ∧
        ∀ LAT PWD, LAT < 256 → PWD < 256 → (LAT, PWD) ∈ trials (runWith neverWorks)) :=
  have hsw : headOf alwaysWorks (16 * 0 + 15) = some (sweepRows alwaysWorks 15) :=
    headOf_of_swept alwaysWorks 15
      (swept_of_no_block alwaysWorks 15 (by decide) (by intro L h1 h2 _; omega))
  have hall : ∀ i, i < 16 → getEntry (pwdLoop (oracle alwaysWorks) (16 * 0 + 15)
      (sweepRows alwaysWorks 15)).MinPWDForLAT (16 * 0 + i) = 0 := by
    intro i hi
    rw [entry_after_row alwaysWorks 15 _ (by decide) hsw (16 * 0 + i) (by omega)]
    exact rowMin_of_least alwaysWorks _ 0 (by decide) rfl (by intro P hP; omega)
  have hno : ∀ k c, k < 15 → headOf neverWorks (16 * k + 15) = some c →
      ¬ ∃ v, v ≠ 0xFF ∧ ∀ i, i < 16 →
        getEntry (pwdLoop (oracle neverWorks) (16 * k + 15) c).MinPWDForLAT (16 * k + i) = v := by
    rintro k c hk hc ⟨v, hv, hall⟩
    have h0 := hall 0 (by decide)
    rw [entry_after_row neverWorks _ c (by omega) hc _ (by omega),
      rowMin_of_none neverWorks _ (by intro P _; rfl)] at h0
    exact hv h0.symm
  ⟨⟨by decide, hsw, by decide, hall⟩,
    (early_termination alwaysWorks).1 0 _ 0 (by decide) hsw (by decide) hall,
    hno, (early_termination neverWorks).2 hno⟩

/-- C5 (as stated, refuted): for the device that reads correctly at pulse width `0xFF`
only, latency 0 is swept and ends with the sentinel `0xFF` in `MinPWDForLAT[0]`,
although the pulse width `0xFF` succeeded for it. -/
theorem sentinel_despite_working_pulse :
    swept onlyMaxPulse 0 ∧ getEntry (runWith onlyMaxPulse).MinPWDForLAT 0 = 0xFF ∧
      onlyMaxPulse 0 255 = true := by
  refine ⟨swept_zero _, ?_, rfl⟩
  rw [run_entry_swept onlyMaxPulse 0 (by decide) (swept_zero _), rowMin_eq_sentinel_iff]
  intro P hP
  have : ¬ (P = 255) := by omega
  simp [onlyMaxPulse, this]

/-- C5 (amended): for every trial-outcome function and every latency `L` the sweep
reached, the final entry `MinPWDForLAT[L]` equals the sentinel `0xFF` if and only if
no pulse width in `0..254` succeeded for `L`; when it is not the sentinel it is a
pulse width that succeeded. -/
theorem sentinel_iff_none_below_max (works : Nat → Nat → Bool) (L : Nat) (hL : L < 256)
    (hs : swept works L) :
    (getEntry (runWith works).MinPWDForLAT L = 0xFF ↔ ∀ P, P < 255 → works L P = false) ∧
      (getEntry (runWith works).MinPWDForLAT L ≠ 0xFF →
        works L (getEntry (runWith works).MinPWDForLAT L) = true) := by
  rw [run_entry_swept works L hL hs]
  exact ⟨rowMin_eq_sentinel_iff works L, fun h => (firstWorking_spec works L 256 h).2.1⟩

/-- An instance of the amended C5: the device that works at pulse width
`0xFF` only, latency 0. -/
theorem sentinel_iff_none_below_max_witness :
    0 < 256 ∧ swept onlyMaxPulse 0 ∧
      ((getEntry (runWith onlyMaxPulse).MinPWDForLAT 0 = 0xFF ↔
          ∀ P, P < 255 → onlyMaxPulse 0 P = false) ∧
        (getEntry (runWith onlyMaxPulse).MinPWDForLAT 0 ≠ 0xFF →
          onlyMaxPulse 0 (getEntry (runWith onlyMaxPulse).MinPWDForLAT 0) = true)) :=
  ⟨by decide, swept_zero _, sentinel_iff_none_below_max onlyMaxPulse 0 (by decide) (swept_zero _)⟩

/-- C6: if no trial succeeds, `RunSpeedTest` writes `OutLAT = 0xFF` and `OutPWD = 0xFF`,
returns `SPEED_LEVEL_TOTAL_POS`, makes all 65,536 trials, and leaves every one of the
256 entries of `MinPWDForLAT` equal to `0xFF`. -/
theorem no_success_outcome (works : Nat → Nat → Bool)
    (h : ∀ LAT PWD, LAT < 256 → PWD < 256 → works LAT PWD = false) :
    (runWith works).OutLAT = 0xFF ∧ (runWith works).OutPWD = 0xFF ∧
      (runWith works).level = SPEED_LEVEL_TOTAL_POS ∧
      trials (runWith works) = sweepTrials 256 ∧
      (trials (runWith works)).length = 65536 ∧
      (runWith works).MinPWDForLAT.length = 256 ∧
      ∀ L, L < 256 → getEntry (runWith works).MinPWDForLAT L = 0xFF := by
  obtain ⟨o1, o2, o3, ht, hl, hM⟩ :=
    run_all_sentinel works (fun L hL => rowMin_of_none works L (fun P hP => h L P hL hP))
  refine ⟨o1, o2, o3, ht, ?_, hl, hM⟩
  rw [ht, length_sweepTrials]

/-- An instance of C6: the device on which nothing works. -/
theorem no_success_outcome_witness :
    (∀ LAT PWD, LAT < 256 → PWD < 256 → neverWorks LAT PWD = false) ∧
      (runWith neverWorks).OutLAT = 0xFF ∧ (runWith neverWorks).OutPWD = 0xFF ∧
      (runWith neverWorks).level = SPEED_LEVEL_TOTAL_POS ∧
      trials (runWith neverWorks) = sweepTrials 256 ∧
      (trials (runWith neverWorks)).length = 65536 ∧
      (runWith neverWorks).MinPWDForLAT.length = 256 ∧
      ∀ L, L < 256 → getEntry (runWith neverWorks).MinPWDForLAT L = 0xFF :=
  ⟨fun _ _ _ _ => rfl, no_success_outcome neverWorks (fun _ _ _ _ => rfl)⟩

/-- C7 (as stated, refuted): for the device on which the reference pair `(0xFF, 0xFF)`
works and nothing else does, the outcome of `RunSpeedTest` (both output parameters,
the returned level and `MinPWDForLAT[0xFF]`) is the same as for the device on which no
trial succeeds. -/
theorem reference_only_outcome_is_failure_outcome :
    onlyReference 0xFF 0xFF = true ∧
      (runWith onlyReference).OutLAT = (runWith neverWorks).OutLAT ∧
      (runWith onlyReference).OutPWD = (runWith neverWorks).OutPWD ∧
      (runWith onlyReference).level = (runWith neverWorks).level ∧
      getEntry (runWith onlyReference).MinPWDForLAT 0xFF =
        getEntry (runWith neverWorks).MinPWDForLAT 0xFF := by
  have h1 : ∀ L, L < 256 → rowMin onlyReference L = 0xFF := by
    intro L _
    rw [rowMin_eq_sentinel_iff]
    intro P hP
    have : ¬ (P = 255) := by omega
    simp [onlyReference, this]
  have h0 : ∀ L, L < 256 → rowMin neverWorks L = 0xFF :=
    fun L _ => rowMin_of_none neverWorks L (fun _ _ => rfl)
  obtain ⟨a1, a2, a3, _, _, a6⟩ := run_all_sentinel onlyReference h1
  obtain ⟨b1, b2, b3, _, _, b6⟩ := run_all_sentinel neverWorks h0
  refine ⟨by decide, ?_, ?_, ?_, ?_⟩
  · rw [a1, b1]
  · rw [a2, b2]
  · rw [a3, b3]
  · rw [a6 0xFF (by decide), b6 0xFF (by decide)]

/-- C7 (amended): for a device whose reads are a function of the timing, the offset and
the length alone, `TestSpeed(0xFF, 0xFF)` run after `ReadReferenceData` returns true;
whenever the reference pair `(0xFF, 0xFF)` works, the pair `RunSpeedTest` writes to its
output parameters is a pair that works; in particular the pair written by the run on
the bus is one at which `TestSpeed` against the reference data succeeds. -/
theorem reference_timing_succeeds (dev : Device) (hd : Deterministic dev) (hw : Hw)
    (hlen : hw.ReferenceData.length = NUM_TEST_LOCATIONS) (M : List Nat)
    (hM : M.length = 256) :
    (TestSpeed dev (ReadReferenceData dev hw) 0xFF 0xFF).1 = true ∧
      (∀ works : Nat → Nat → Bool, works 0xFF 0xFF = true →
        works (runWith works).OutLAT (runWith works).OutPWD = true) ∧
      worksOn dev (ReadReferenceData dev hw).ReferenceData
        (RunSpeedTest (busOps dev) M hw).OutLAT (RunSpeedTest (busOps dev) M hw).OutPWD = true := by
  have href := TestSpeed_reference dev hd hw hlen
  have hgen : ∀ works : Nat → Nat → Bool, works 0xFF 0xFF = true →
      works (runWith works).OutLAT (runWith works).OutPWD = true := by
    intro works h255
    rcases run_out_works works with ⟨o1, o2⟩ | ⟨h, _⟩
    · rw [o1, o2]
      exact h255
    · exact h
  refine ⟨href, hgen, ?_⟩
  obtain ⟨_, b2, b3, _, _⟩ := RunSpeedTest_on_bus dev hd M hM hw
  rw [b2, b3]
  apply hgen
  unfold worksOn
  rw [TestSpeed_fst_indep dev hd
    (Hw.mk (Bus.mk (Timing.mk 0 0 0 0) 0 [] false) (ReadReferenceData dev hw).ReferenceData)
    (ReadReferenceData dev hw) rfl]
  exact href

/-- An instance of the amended C7: the all-zero device on the bus after
reset. -/
theorem reference_timing_succeeds_witness :
    Deterministic zeroDevice ∧ hwInit.ReferenceData.length = NUM_TEST_LOCATIONS ∧
      (List.replicate 256 0).length = 256 ∧
      (TestSpeed zeroDevice (ReadReferenceData zeroDevice hwInit) 0xFF 0xFF).1 = true ∧
      (∀ works : Nat → Nat → Bool, works 0xFF 0xFF = true →
        works (runWith works).OutLAT (runWith works).OutPWD = true) ∧
      worksOn zeroDevice (ReadReferenceData zeroDevice hwInit).ReferenceData
        (RunSpeedTest (busOps zeroDevice) (List.replicate 256 0) hwInit).OutLAT
        (RunSpeedTest (busOps zeroDevice) (List.replicate 256 0) hwInit).OutPWD = true :=
  ⟨fun _ _ _ _ _ _ => rfl, rfl, List.length_replicate _ _,
    reference_timing_succeeds zeroDevice (fun _ _ _ _ _ _ => rfl) hwInit rfl
      (List.replicate 256 0) (List.length_replicate _ _)⟩

/-! ## Claims about the presence detector and the bus -/

/-- C8: for the four words read, `CartDetectPresence` returns false exactly when `w0` has
its low or its high 16-bit half equal to `0x0000` and `w2` has its low or its high
half equal to `0x0008`; it returns true exactly when `w0` or `w2` has neither half
equal to the low 16 bits of its address; the result does not depend on `w1` or `w3`. -/
theorem presence_iff_echo_deviates (w0 w1 w2 w3 : Nat) :
    (presenceOfWords [w0, w1, w2, w3] = false ↔
        (w0 % 65536 = 0 ∨ w0 / 65536 % 65536 = 0) ∧
          (w2 % 65536 = 8 ∨ w2 / 65536 % 65536 = 8)) ∧
      (presenceOfWords [w0, w1, w2, w3] = true ↔
        (w0 % 65536 ≠ 0 ∧ w0 / 65536 % 65536 ≠ 0) ∨
          (w2 % 65536 ≠ 8 ∧ w2 / 65536 % 65536 ≠ 8)) ∧
      (∀ v1 v3, presenceOfWords [w0, v1, w2, v3] = presenceOfWords [w0, w1, w2, w3]) ∧
      ∀ (dev : Device) (b : Bus), ∃ x0 x1 x2 x3,
        (presenceReads dev b).1 = [x0, x1, x2, x3] ∧
          (CartDetectPresence dev b).1 = presenceOfWords [x0, x1, x2, x3] := by
  refine ⟨?_, ?_, ?_, ?_⟩
  · rw [presenceOfWords_eq]
    by_cases h0 : w0 % 65536 = 0 ∨ w0 / 65536 % 65536 = 0
    · by_cases h2 : w2 % 65536 = 8 ∨ w2 / 65536 % 65536 = 8
      · simp [h0, h2]
      · simp [h0, h2]
    · simp [h0]
  · rw [presenceOfWords_eq]
    by_cases h0 : w0 % 65536 = 0 ∨ w0 / 65536 % 65536 = 0
    · by_cases h2 : w2 % 65536 = 8 ∨ w2 / 65536 % 65536 = 8
      · simp only [h0, h2, decide_True, Bool.and_self, Bool.not_true]
        constructor
        · intro h
          exact absurd h (by decide)
        · rintro (h | h)
          · rcases h0 with e | e
            · exact absurd e h.1
            · exact absurd e h.2
          · rcases h2 with e | e
            · exact absurd e h.1
            · exact absurd e h.2
      · simp only [h0, h2, decide_True, decide_False, Bool.and_false, Bool.not_false, true_iff]
        exact Or.inr ⟨fun e => h2 (Or.inl e), fun e => h2 (Or.inr e)⟩
    · simp only [h0, decide_False, Bool.false_and, Bool.not_false, true_iff]
      exact Or.inl ⟨fun e => h0 (Or.inl e), fun e => h0 (Or.inr e)⟩
  · intro v1 v3
    rw [presenceOfWords_eq, presenceOfWords_eq]
  · intro dev b
    exact ⟨_, _, _, _, rfl, rfl⟩

/-- C9 (code defect): `CartDetectPresence` calls `CartDom1Read` four times, at the offsets
0, 4, 8 and 12, each time with the length 4 (`sizeof(uint32_t)`), on every device and from
every state of the bus; 4 is not a multiple of 16, so these calls break the rule the
source states at its other transfers ("Read length must be a multiple of 16 bytes"),
although they pass the range assertions of `CartDom1Read`.  The rest of the claim holds:
a transfer in bounds passes every assertion, and all other calls keep the rule, the
one of `CartReadName` being `read 0x20 32`, those of `ReadReferenceData`, `TestSpeed`
and `RunSpeedTest` in-bounds transfers of a multiple of 16 bytes, and the confirmation
read of the state Test `read 0 128`; in every call of `HandleStateMachine` the 4-byte
reads come first and every later event is a register write or such a block transfer,
and no assertion fails. -/
theorem presence_reads_break_transfer_granularity :
    (CartDetectPresence zeroDevice busInit).2.log =
        [BusEvent.read 12 4, BusEvent.read 8 4, BusEvent.read 4 4, BusEvent.read 0 4] ∧
      (CartDetectPresence zeroDevice busInit).2.assertFailed = false ∧
      CartDom1ReadAsserts false 0 4 = true ∧ ¬ (4 % 16 = 0) ∧
      (∀ (dev : Device) (b : Bus), (CartDetectPresence dev b).2.log =
          BusEvent.read 12 4 :: BusEvent.read 8 4 :: BusEvent.read 4 4 :: BusEvent.read 0 4 ::
            b.log ∧
        (CartDetectPresence dev b).2.assertFailed = b.assertFailed) ∧
      (∀ Offset, ¬ okBlock (BusEvent.read Offset 4)) ∧
      (∀ Offset Len, inBounds Offset Len → CartDom1ReadAsserts false Offset Len = true) ∧
      (∀ (dev : Device) (b : Bus) (nb : List Nat),
        (CartReadName dev b false nb 21).2.2.log = BusEvent.read 0x20 32 :: b.log ∧
          okBlock (BusEvent.read 0x20 32)) ∧
      (∀ (dev : Device) (hw : Hw), BusExt okBlock hw.bus (ReadReferenceData dev hw).bus) ∧
      (∀ (dev : Device) (hw : Hw) (LAT PWD : Nat),
        BusExt okBlock hw.bus (TestSpeed dev hw LAT PWD).2.bus) ∧
      (∀ (dev : Device) (M : List Nat) (hw : Hw),
        BusExt okBlock hw.bus (RunSpeedTest (busOps dev) M hw).hw.bus) ∧
      (∀ (fuel : Nat) (dev : Device) (m : Machine),
        m.CurrentState = test_state_t.STATE_TEST →
        (CartDetectPresence dev m.hw.bus).1 = true →
        ∃ m1, HandleStateMachine false fuel dev m = some m1 ∧
          m1.hw.bus.log = BusEvent.speed 0xFF 0xFF 0x07 0x03 :: BusEvent.read 0 128 ::
            BusEvent.speed (testRun dev m).OutLAT (testRun dev m).OutPWD 0x07 0x03 ::
            (testRun dev m).hw.bus.log ∧
          okBlock (BusEvent.read 0 128)) ∧
      ∀ (emu : Bool) (fuel : Nat) (dev : Device) (m m1 : Machine),
        HandleStateMachine emu fuel dev m = some m1 →
        ∃ mid, BusExt okWord m.hw.bus mid ∧ BusExt okBlock mid m1.hw.bus ∧
          (m.CurrentState = test_state_t.STATE_DETECT ∨
              m.CurrentState = test_state_t.STATE_TEST →
            mid = (CartDetectPresence dev m.hw.bus).2) := by
  have hlog : ∀ (dev : Device) (b : Bus), (CartDetectPresence dev b).2.log =
      BusEvent.read 12 4 :: BusEvent.read 8 4 :: BusEvent.read 4 4 :: BusEvent.read 0 4 ::
        b.log ∧ (CartDetectPresence dev b).2.assertFailed = b.assertFailed := by
    intro dev b
    show (presenceReads dev b).2.log = _ ∧ (presenceReads dev b).2.assertFailed = _
    rw [presenceReads_bus]
    exact ⟨rfl, rfl⟩
  refine ⟨(hlog zeroDevice busInit).1, (hlog zeroDevice busInit).2, by decide, by decide,
    hlog, ?_, asserts_of_inBounds, ?_, ReadReferenceData_ext, TestSpeed_ext, RunSpeedTest_ext,
    ?_, HandleStateMachine_words_then_blocks⟩
  · intro Offset h
    exact absurd h.2 (by decide)
  · intro dev b nb
    rw [CartReadName_bus]
    exact ⟨rfl, ⟨by decide, by decide, by decide⟩, by decide⟩
  · intro fuel dev m hs hp
    have key := HandleStateMachine_test_present fuel dev m hs hp
    obtain ⟨_, _, f3, _⟩ :=
      test_step_fields (testRun dev m) m.FirstInit m.CartridgeName _ rfl
    exact ⟨_, key, f3, ⟨by decide, by decide, by decide⟩, by decide⟩

/-- An instance of C9 for the confirmation read: the state Test on the fading device, where
the media is present, ends with the write of the timing found, the transfer
`read 0 128` and the write of the reference timing. -/
theorem presence_reads_break_transfer_granularity_witness :
    (machineAt test_state_t.STATE_TEST).CurrentState = test_state_t.STATE_TEST ∧
      (CartDetectPresence fadingDevice (machineAt test_state_t.STATE_TEST).hw.bus).1 = true ∧
      ∃ m1, HandleStateMachine false 0 fadingDevice (machineAt test_state_t.STATE_TEST) =
          some m1 ∧
        m1.hw.bus.log = BusEvent.speed 0xFF 0xFF 0x07 0x03 :: BusEvent.read 0 128 ::
          BusEvent.speed (testRun fadingDevice (machineAt test_state_t.STATE_TEST)).OutLAT
            (testRun fadingDevice (machineAt test_state_t.STATE_TEST)).OutPWD 0x07 0x03 ::
          (testRun fadingDevice (machineAt test_state_t.STATE_TEST)).hw.bus.log ∧
        okBlock (BusEvent.read 0 128) :=
  have hp : (CartDetectPresence fadingDevice (machineAt test_state_t.STATE_TEST).hw.bus).1 = true :=
    by decide
  ⟨rfl, hp, presence_reads_break_transfer_granularity.2.2.2.2.2.2.2.2.2.2.2.1 0 fadingDevice
    (machineAt test_state_t.STATE_TEST) rfl hp⟩

/-! ## Claims about the session state machine -/

/-- C10: when `HandleStateMachine` runs in the state Test and `CartDetectPresence`
reports the media absent, the call returns with the state Detect; the only bus events
of the call are the four reads of the detector, so no timing register is written and
no trial or reference read is made, and `MinPWDForLAT`, `ReferenceData`, the name and
the timing registers are left as they were. -/
theorem test_absent_returns_to_detect (emu : Bool) (fuel : Nat) (dev : Device) (m : Machine)
    (hs : m.CurrentState = test_state_t.STATE_TEST)
    (ha : (CartDetectPresence dev m.hw.bus).1 = false) :
    ∃ m1, HandleStateMachine emu fuel dev m = some m1 ∧
      m1.CurrentState = test_state_t.STATE_DETECT ∧
      m1.MinPWDForLAT = m.MinPWDForLAT ∧ m1.CartridgeName = m.CartridgeName ∧
      m1.FirstInit = m.FirstInit ∧ m1.hw.ReferenceData = m.hw.ReferenceData ∧
      m1.hw.bus.regs = m.hw.bus.regs ∧
      m1.hw.bus.log = BusEvent.read 12 4 :: BusEvent.read 8 4 :: BusEvent.read 4 4 ::
        BusEvent.read 0 4 :: m.hw.bus.log ∧
      ∀ LAT PWD PGS RLS, BusEvent.speed LAT PWD PGS RLS ∈ m1.hw.bus.log →
        BusEvent.speed LAT PWD PGS RLS ∈ m.hw.bus.log := by
  refine ⟨Machine.mk test_state_t.STATE_DETECT m.FirstInit m.CartridgeName m.MinPWDForLAT
    (Hw.mk (CartDetectPresence dev m.hw.bus).2 m.hw.ReferenceData), ?_, rfl, rfl, rfl, rfl, rfl,
    ?_, ?_, ?_⟩
  · unfold HandleStateMachine
    simp only [hs, ha, if_true]
  · show (presenceReads dev m.hw.bus).2.regs = m.hw.bus.regs
    rw [presenceReads_bus]
  · show (presenceReads dev m.hw.bus).2.log = _
    rw [presenceReads_bus]
  · intro LAT PWD PGS RLS h
    have h2 : BusEvent.speed LAT PWD PGS RLS ∈ (presenceReads dev m.hw.bus).2.log := h
    rw [presenceReads_bus] at h2
    simpa using h2

/-- An instance of C10: the state Test on the open bus. -/
theorem test_absent_returns_to_detect_witness :
    (machineAt test_state_t.STATE_TEST).CurrentState = test_state_t.STATE_TEST ∧
      (CartDetectPresence openBusDevice (machineAt test_state_t.STATE_TEST).hw.bus).1 = false ∧
      ∃ m1, HandleStateMachine false 0 openBusDevice (machineAt test_state_t.STATE_TEST) =
          some m1 ∧
        m1.CurrentState = test_state_t.STATE_DETECT ∧
        m1.MinPWDForLAT = (machineAt test_state_t.STATE_TEST).MinPWDForLAT ∧
        m1.CartridgeName = (machineAt test_state_t.STATE_TEST).CartridgeName ∧
        m1.FirstInit = (machineAt test_state_t.STATE_TEST).FirstInit ∧
        m1.hw.ReferenceData = (machineAt test_state_t.STATE_TEST).hw.ReferenceData ∧
        m1.hw.bus.regs = (machineAt test_state_t.STATE_TEST).hw.bus.regs ∧
        m1.hw.bus.log = BusEvent.read 12 4 :: BusEvent.read 8 4 :: BusEvent.read 4 4 ::
          BusEvent.read 0 4 :: (machineAt test_state_t.STATE_TEST).hw.bus.log ∧
        ∀ LAT PWD PGS RLS, BusEvent.speed LAT PWD PGS RLS ∈ m1.hw.bus.log →
          BusEvent.speed LAT PWD PGS RLS ∈ (machineAt test_state_t.STATE_TEST).hw.bus.log :=
  ⟨rfl, by decide,
    test_absent_returns_to_detect false 0 openBusDevice (machineAt test_state_t.STATE_TEST) rfl
      (by decide)⟩

/-- C11: when `HandleStateMachine` runs in the state Detect, the call returns; with the
media absent the state stays Detect; with the media present `CartReadName` returns true
exactly when one of the 20 identity bytes (device offsets `0x20..0x33`) lies in
`0x20..0x7E`, the state becomes Test exactly in that case, and stays Detect when none
of the bytes does. -/
theorem detect_advances_iff_printable (emu : Bool) (fuel : Nat) (dev : Device) (m : Machine)
    (hs : m.CurrentState = test_state_t.STATE_DETECT) :
    ∃ m1, HandleStateMachine emu fuel dev m = some m1 ∧
      ((CartDetectPresence dev m.hw.bus).1 = false →
        m1.CurrentState = test_state_t.STATE_DETECT) ∧
      ((CartDetectPresence dev m.hw.bus).1 = true →
        ((CartReadName dev (CartDetectPresence dev m.hw.bus).2 false m.CartridgeName 21).1 = true ↔
            ∃ i, i < 20 ∧ printable (nameByte dev (CartDetectPresence dev m.hw.bus).2 i)) ∧
          (m1.CurrentState = test_state_t.STATE_TEST ↔
            ∃ i, i < 20 ∧ printable (nameByte dev (CartDetectPresence dev m.hw.bus).2 i)) ∧
          ((∀ i, i < 20 → ¬ printable (nameByte dev (CartDetectPresence dev m.hw.bus).2 i)) →
            m1.CurrentState = test_state_t.STATE_DETECT)) ∧
      ∀ i, nameByte dev (CartDetectPresence dev m.hw.bus).2 i =
        u8 (dev (m.hw.bus.transfers + 4) m.hw.bus.regs 0x20 32 i) := by
  have hname := CartReadName_fst dev (CartDetectPresence dev m.hw.bus).2 m.CartridgeName
  have hbyte : ∀ i, nameByte dev (CartDetectPresence dev m.hw.bus).2 i =
      u8 (dev (m.hw.bus.transfers + 4) m.hw.bus.regs 0x20 32 i) := by
    intro i
    show nameByte dev (presenceReads dev m.hw.bus).2 i = _
    rw [presenceReads_bus]
    rfl
  rw [HandleStateMachine_detect emu fuel dev m hs]
  by_cases hp : (CartDetectPresence dev m.hw.bus).1 = false
  · rw [if_pos hp]
    refine ⟨_, rfl, fun _ => rfl, ?_, hbyte⟩
    intro h
    rw [hp] at h
    exact absurd h (by decide)
  · rw [if_neg hp]
    refine ⟨_, rfl, fun h => absurd h hp, ?_, hbyte⟩
    intro _
    refine ⟨hname, ?_, ?_⟩
    · rw [← hname]
      by_cases hn :
          (CartReadName dev (CartDetectPresence dev m.hw.bus).2 false m.CartridgeName 21).1 = true
      · simp [hn]
      · simp [hn]
    · intro hnone
      have hn : ¬ (CartReadName dev (CartDetectPresence dev m.hw.bus).2 false
          m.CartridgeName 21).1 = true := by
        rw [hname]
        rintro ⟨i, hi, hpr⟩
        exact hnone i hi hpr
      simp [hn]

/-- Instances of C11: in the state Detect the all-zero device is present and its name
has no printable byte, the device reading the letter `A` is present with a printable
name. -/
theorem detect_advances_iff_printable_witness :
    (machineAt test_state_t.STATE_DETECT).CurrentState = test_state_t.STATE_DETECT ∧
      (∃ m1, HandleStateMachine false 0 zeroDevice (machineAt test_state_t.STATE_DETECT) =
          some m1 ∧
        ((CartDetectPresence zeroDevice (machineAt test_state_t.STATE_DETECT).hw.bus).1 = false →
          m1.CurrentState = test_state_t.STATE_DETECT) ∧
        ((CartDetectPresence zeroDevice (machineAt test_state_t.STATE_DETECT).hw.bus).1 = true →
          ((CartReadName zeroDevice
                (CartDetectPresence zeroDevice (machineAt test_state_t.STATE_DETECT).hw.bus).2
                false (machineAt test_state_t.STATE_DETECT).CartridgeName 21).1 = true ↔
              ∃ i, i < 20 ∧ printable (nameByte zeroDevice
                (CartDetectPresence zeroDevice (machineAt test_state_t.STATE_DETECT).hw.bus).2 i)) ∧
            (m1.CurrentState = test_state_t.STATE_TEST ↔
              ∃ i, i < 20 ∧ printable (nameByte zeroDevice
                (CartDetectPresence zeroDevice (machineAt test_state_t.STATE_DETECT).hw.bus).2 i)) ∧
            ((∀ i, i < 20 → ¬ printable (nameByte zeroDevice
                (CartDetectPresence zeroDevice (machineAt test_state_t.STATE_DETECT).hw.bus).2 i)) →
              m1.CurrentState = test_state_t.STATE_DETECT)) ∧
        ∀ i, nameByte zeroDevice
            (CartDetectPresence zeroDevice (machineAt test_state_t.STATE_DETECT).hw.bus).2 i =
          u8 (zeroDevice ((machineAt test_state_t.STATE_DETECT).hw.bus.transfers + 4)
            (machineAt test_state_t.STATE_DETECT).hw.bus.regs 0x20 32 i)) ∧
      (CartDetectPresence zeroDevice (machineAt test_state_t.STATE_DETECT).hw.bus).1 = true ∧
      (∀ i, i < 20 → ¬ printable (nameByte zeroDevice
        (CartDetectPresence zeroDevice (machineAt test_state_t.STATE_DETECT).hw.bus).2 i)) ∧
      (CartDetectPresence letterDevice (machineAt test_state_t.STATE_DETECT).hw.bus).1 = true ∧
      printable (nameByte letterDevice
        (CartDetectPresence letterDevice (machineAt test_state_t.STATE_DETECT).hw.bus).2 0) :=
  ⟨rfl, detect_advances_iff_printable false 0 zeroDevice (machineAt test_state_t.STATE_DETECT) rfl,
    by decide, fun _ _ h => absurd (show (32 : Nat) ≤ 0 from h.1) (by decide), by decide,
    ⟨by decide, by decide⟩⟩

/-- C12: when `HandleStateMachine` runs in the state Test with the media present
(build without `RUN_ON_EMULATOR`), the call returns with the state SafeToRemove and
the timing registers at `(0xFF, 0xFF, 0x07, 0x03)`; the bus events after those of the
calibration run are exactly the write of `(OutLAT, OutPWD, 0x07, 0x03)`, one 128-byte
read at offset 0 and the write of `(0xFF, 0xFF, 0x07, 0x03)`; and whatever fixed outcome
function the trials have, the pair written first is the pair `RunSpeedTest` reports
for that function. -/
theorem test_present_applies_best_then_restores (fuel : Nat) (dev : Device) (m : Machine)
    (hs : m.CurrentState = test_state_t.STATE_TEST)
    (hp : (CartDetectPresence dev m.hw.bus).1 = true) :
    ∃ m1, HandleStateMachine false fuel dev m = some m1 ∧
      m1.CurrentState = test_state_t.STATE_SAFE_REMOVE ∧
      m1.hw.bus.regs = Timing.mk 0xFF 0xFF 0x07 0x03 ∧
      m1.hw.bus.log = BusEvent.speed 0xFF 0xFF 0x07 0x03 :: BusEvent.read 0 128 ::
        BusEvent.speed (testRun dev m).OutLAT (testRun dev m).OutPWD 0x07 0x03 ::
        (testRun dev m).hw.bus.log ∧
      m1.MinPWDForLAT = (testRun dev m).MinPWDForLAT ∧
      ∀ (works : Nat → Nat → Bool) (I : Hw → Prop), m.MinPWDForLAT.length = 256 →
        FixedOutcome dev works I
          (Hw.mk (CartDetectPresence dev m.hw.bus).2 m.hw.ReferenceData) →
        (testRun dev m).OutLAT = (runWith works).OutLAT ∧
          (testRun dev m).OutPWD = (runWith works).OutPWD := by
  have key := HandleStateMachine_test_present fuel dev m hs hp
  have hout : ∀ (works : Nat → Nat → Bool) (I : Hw → Prop), m.MinPWDForLAT.length = 256 →
      FixedOutcome dev works I
        (Hw.mk (CartDetectPresence dev m.hw.bus).2 m.hw.ReferenceData) →
      (testRun dev m).OutLAT = (runWith works).OutLAT ∧
        (testRun dev m).OutPWD = (runWith works).OutPWD := by
    intro works I hM hfix
    obtain ⟨_, a, b, _⟩ := testRun_fixed dev m works I hM hfix
    exact ⟨a, b⟩
  obtain ⟨f1, f2, f3, f4⟩ :=
    test_step_fields (testRun dev m) m.FirstInit m.CartridgeName _ rfl
  exact ⟨_, key, f1, f2, f3, f4, hout⟩

/-- An instance of C12: the state Test on the fading device, on which the media is
present and no trial succeeds, so that the pair written first is `(0xFF, 0xFF)`. -/
theorem test_present_applies_best_then_restores_witness :
    (machineAt test_state_t.STATE_TEST).CurrentState = test_state_t.STATE_TEST ∧
      (CartDetectPresence fadingDevice (machineAt test_state_t.STATE_TEST).hw.bus).1 = true ∧
      (machineAt test_state_t.STATE_TEST).MinPWDForLAT.length = 256 ∧
      FixedOutcome fadingDevice neverWorks
        (fun s => s.ReferenceData = hwInit.ReferenceData ∧ 8 ≤ s.bus.transfers)
        (Hw.mk (CartDetectPresence fadingDevice (machineAt test_state_t.STATE_TEST).hw.bus).2
          (machineAt test_state_t.STATE_TEST).hw.ReferenceData) ∧
      ∃ m1, HandleStateMachine false 0 fadingDevice (machineAt test_state_t.STATE_TEST) =
          some m1 ∧
        m1.CurrentState = test_state_t.STATE_SAFE_REMOVE ∧
        m1.hw.bus.regs = Timing.mk 0xFF 0xFF 0x07 0x03 ∧
        m1.hw.bus.log = BusEvent.speed 0xFF 0xFF 0x07 0x03 :: BusEvent.read 0 128 ::
          BusEvent.speed (testRun fadingDevice (machineAt test_state_t.STATE_TEST)).OutLAT
            (testRun fadingDevice (machineAt test_state_t.STATE_TEST)).OutPWD 0x07 0x03 ::
          (testRun fadingDevice (machineAt test_state_t.STATE_TEST)).hw.bus.log ∧
        m1.MinPWDForLAT = (testRun fadingDevice (machineAt test_state_t.STATE_TEST)).MinPWDForLAT ∧
        (testRun fadingDevice (machineAt test_state_t.STATE_TEST)).OutLAT =
          (runWith neverWorks).OutLAT ∧
        (testRun fadingDevice (machineAt test_state_t.STATE_TEST)).OutPWD =
          (runWith neverWorks).OutPWD :=
  have hM : (machineAt test_state_t.STATE_TEST).MinPWDForLAT.length = 256 :=
    List.length_replicate _ _
  have hp : (CartDetectPresence fadingDevice (machineAt test_state_t.STATE_TEST).hw.bus).1 = true :=
    by decide
  match test_present_applies_best_then_restores 0 fadingDevice
      (machineAt test_state_t.STATE_TEST) rfl hp with
  | ⟨m1, h1, h2, h3, h4, h5, h6⟩ =>
    ⟨rfl, hp, hM, fading_fixed, m1, h1, h2, h3, h4, h5, h6 neverWorks _ hM fading_fixed⟩

/-- C14: if the pair `RunSpeedTest` writes is not `(0xFF, 0xFF)`, that pair was tried in
this run and succeeded, neither component is `0xFF`, and `OutPWD = MinPWDForLAT[OutLAT]`;
so, when the trials on the bus have the fixed outcome `works`, the timing the state Test
writes before the confirmation read is the reference timing `(0xFF, 0xFF)` or a pair
that works. -/
theorem reported_pair_was_verified (works : Nat → Nat → Bool) :
    (¬ ((runWith works).OutLAT = 0xFF ∧ (runWith works).OutPWD = 0xFF) →
        ((runWith works).OutLAT, (runWith works).OutPWD) ∈ trials (runWith works) ∧
          works (runWith works).OutLAT (runWith works).OutPWD = true ∧
          (runWith works).OutLAT ≠ 0xFF ∧ (runWith works).OutPWD ≠ 0xFF ∧
          (runWith works).OutPWD =
            getEntry (runWith works).MinPWDForLAT (runWith works).OutLAT) ∧
      ∀ (fuel : Nat) (dev : Device) (m : Machine) (I : Hw → Prop),
        m.CurrentState = test_state_t.STATE_TEST →
        (CartDetectPresence dev m.hw.bus).1 = true →
        m.MinPWDForLAT.length = 256 →
        FixedOutcome dev works I
          (Hw.mk (CartDetectPresence dev m.hw.bus).2 m.hw.ReferenceData) →
        ∃ m1 LAT PWD rest, HandleStateMachine false fuel dev m = some m1 ∧
          m1.hw.bus.log = BusEvent.speed 0xFF 0xFF 0x07 0x03 :: BusEvent.read 0 128 ::
            BusEvent.speed LAT PWD 0x07 0x03 :: rest ∧
          ((LAT = 0xFF ∧ PWD = 0xFF) ∨ works LAT PWD = true) := by
  refine ⟨?_, ?_⟩
  · intro h
    obtain ⟨a, b, c, d, _, _, _, e⟩ := run_out_spec works h
    exact ⟨a, b, c, d, e⟩
  · intro fuel dev m I hs hp hM hfix
    obtain ⟨_, a, b, _⟩ := testRun_fixed dev m works I hM hfix
    have key := HandleStateMachine_test_present fuel dev m hs hp
    have hw : ((testRun dev m).OutLAT = 0xFF ∧ (testRun dev m).OutPWD = 0xFF) ∨
        works (testRun dev m).OutLAT (testRun dev m).OutPWD = true := by
      rw [a, b]
      rcases run_out_works works with h | h
      · exact Or.inl h
      · exact Or.inr h.1
    generalize testRun dev m = r at key hw
    exact ⟨_, r.OutLAT, r.OutPWD, r.hw.bus.log, key, rfl, hw⟩

/-- Instances of C14: against the device that works at every timing the run writes
`(0, 0)`; on the bus with the all-zero device the state Test writes the reference
timing or a pair at which `TestSpeed` succeeds. -/
theorem reported_pair_was_verified_witness :
    ¬ ((runWith alwaysWorks).OutLAT = 0xFF ∧ (runWith alwaysWorks).OutPWD = 0xFF) ∧
      (((runWith alwaysWorks).OutLAT, (runWith alwaysWorks).OutPWD) ∈
          trials (runWith alwaysWorks) ∧
        alwaysWorks (runWith alwaysWorks).OutLAT (runWith alwaysWorks).OutPWD = true ∧
        (runWith alwaysWorks).OutLAT ≠ 0xFF ∧ (runWith alwaysWorks).OutPWD ≠ 0xFF ∧
        (runWith alwaysWorks).OutPWD =
          getEntry (runWith alwaysWorks).MinPWDForLAT (runWith alwaysWorks).OutLAT) ∧
      (machineAt test_state_t.STATE_TEST).CurrentState = test_state_t.STATE_TEST ∧
      (CartDetectPresence zeroDevice (machineAt test_state_t.STATE_TEST).hw.bus).1 = true ∧
      (machineAt test_state_t.STATE_TEST).MinPWDForLAT.length = 256 ∧
      FixedOutcome zeroDevice
        (worksOn zeroDevice (ReadReferenceData zeroDevice (testStart zeroDevice)).ReferenceData)
        (fun s => s.ReferenceData =
          (ReadReferenceData zeroDevice (testStart zeroDevice)).ReferenceData)
        (Hw.mk (CartDetectPresence zeroDevice (machineAt test_state_t.STATE_TEST).hw.bus).2
          (machineAt test_state_t.STATE_TEST).hw.ReferenceData) ∧
      ∃ m1 LAT PWD rest,
        HandleStateMachine false 0 zeroDevice (machineAt test_state_t.STATE_TEST) = some m1 ∧
        m1.hw.bus.log = BusEvent.speed 0xFF 0xFF 0x07 0x03 :: BusEvent.read 0 128 ::
          BusEvent.speed LAT PWD 0x07 0x03 :: rest ∧
        ((LAT = 0xFF ∧ PWD = 0xFF) ∨
          worksOn zeroDevice (ReadReferenceData zeroDevice (testStart zeroDevice)).ReferenceData
            LAT PWD = true) :=
  have h0 : ¬ ((runWith alwaysWorks).OutLAT = 0xFF ∧ (runWith alwaysWorks).OutPWD = 0xFF) := by
    rw [(run_out_zero alwaysWorks rfl).1]
    intro h
    exact absurd h.1 (by decide)
  have hp : (CartDetectPresence zeroDevice (machineAt test_state_t.STATE_TEST).hw.bus).1 = true :=
    by decide
  have hM : (machineAt test_state_t.STATE_TEST).MinPWDForLAT.length = 256 :=
    List.length_replicate _ _
  have hfix := fixedOutcome_of_deterministic zeroDevice (fun _ _ _ _ _ _ => rfl)
    (testStart zeroDevice)
  ⟨h0, (reported_pair_was_verified alwaysWorks).1 h0, rfl, hp, hM, hfix,
    (reported_pair_was_verified
      (worksOn zeroDevice (ReadReferenceData zeroDevice (testStart zeroDevice)).ReferenceData)).2
      0 zeroDevice (machineAt test_state_t.STATE_TEST) _ rfl hp hM hfix⟩

/-! ## Claims about the trap handler -/

/-- C13: for every exception record whose type is not `EXCEPTION_TYPE_CRITICAL` or whose
code is not `EXCEPTION_CODE_WATCH`, `exception_handler` does what the previously
installed handler does with the same record; for a critical Watch exception the result
does not depend on the previous handler, the rest of the system is untouched, the saved
registers get `sr` equal to the status value saved by `hang_pif`, `epc` equal to the
address of the sentinel label and `t1` equal to `0xA5A5A5A55A5A5A5A`, and every other
field of the record is unchanged. -/
theorem exception_handler_intercepts_watch_only {ρ ι ω : Type} (env : TrapEnv)
    (cpu : TrapCpu ρ ι ω) (ex : exception_t ρ ι) (w : ω) :
    (hang_pif_install env cpu).1.sr = u32 cpu.C0_STATUS ∧
      (hang_pif_install env cpu).1.old_exception_handler = cpu.handler ∧
      (hang_pif_install env cpu).2.handler = exception_handler env (hang_pif_install env cpu).1 ∧
      ((ex.type ≠ env.EXCEPTION_TYPE_CRITICAL ∨ ex.code ≠ env.EXCEPTION_CODE_WATCH) →
        (hang_pif_install env cpu).2.handler ex w = cpu.handler ex w) ∧
      (ex.type = env.EXCEPTION_TYPE_CRITICAL → ex.code = env.EXCEPTION_CODE_WATCH →
        (hang_pif_install env cpu).2.handler ex w =
            (exception_t.mk ex.type ex.code ex.info
              (reg_block_t.mk (u32 cpu.C0_STATUS) (u32 env.nasty_label_hack)
                0xA5A5A5A55A5A5A5A ex.regs.others), w) ∧
          ∀ other : exception_handler_t ρ ι ω,
            exception_handler env (PifStatics.mk other (u32 cpu.C0_STATUS)) ex w =
              (hang_pif_install env cpu).2.handler ex w) := by
  refine ⟨rfl, rfl, rfl, ?_, ?_⟩
  · intro h
    show exception_handler env (PifStatics.mk cpu.handler (u32 cpu.C0_STATUS)) ex w = _
    unfold exception_handler
    by_cases h1 : ex.type ≠ env.EXCEPTION_TYPE_CRITICAL
    · rw [if_pos h1]
    · rw [if_neg h1]
      have h2 : ex.code ≠ env.EXCEPTION_CODE_WATCH := by
        rcases h with h | h
        · exact absurd h h1
        · exact h
      rw [if_pos h2]
  · intro h1 h2
    have n1 : ¬ ex.type ≠ env.EXCEPTION_TYPE_CRITICAL := fun h => h h1
    have n2 : ¬ ex.code ≠ env.EXCEPTION_CODE_WATCH := fun h => h h2
    refine ⟨?_, ?_⟩
    · show exception_handler env (PifStatics.mk cpu.handler (u32 cpu.C0_STATUS)) ex w = _
      unfold exception_handler
      rw [if_neg n1, if_neg n2]
    · intro other
      show exception_handler env (PifStatics.mk other (u32 cpu.C0_STATUS)) ex w =
        exception_handler env (PifStatics.mk cpu.handler (u32 cpu.C0_STATUS)) ex w
      unfold exception_handler
      rw [if_neg n1, if_neg n2, if_neg n1, if_neg n2]

/-- Instances of C13: a critical exception that is not Watch goes to the counting
handler, which counts one call; a critical Watch exception is intercepted and the
counter stays as it was. -/
theorem exception_handler_intercepts_watch_only_witness :
    (otherRecord.type ≠ sampleEnv.EXCEPTION_TYPE_CRITICAL ∨
        otherRecord.code ≠ sampleEnv.EXCEPTION_CODE_WATCH) ∧
      (hang_pif_install sampleEnv sampleCpu).2.handler otherRecord 0 = (otherRecord, 1) ∧
      watchRecord.type = sampleEnv.EXCEPTION_TYPE_CRITICAL ∧
      watchRecord.code = sampleEnv.EXCEPTION_CODE_WATCH ∧
      (hang_pif_install sampleEnv sampleCpu).2.handler watchRecord 0 =
        (exception_t.mk 2 23 ()
          (reg_block_t.mk 0x34000001 0x80010000 0xA5A5A5A55A5A5A5A ()), 0) :=
  have ho : otherRecord.type ≠ sampleEnv.EXCEPTION_TYPE_CRITICAL ∨
      otherRecord.code ≠ sampleEnv.EXCEPTION_CODE_WATCH := Or.inr (by decide)
  ⟨ho,
    (exception_handler_intercepts_watch_only sampleEnv sampleCpu otherRecord 0).2.2.2.1 ho,
    rfl, rfl,
    ((exception_handler_intercepts_watch_only sampleEnv sampleCpu watchRecord 0).2.2.2.2
      rfl rfl).1⟩

end Dom1SpeedTest
